import Mathlib

/-!
# seidl: image filtering and command-line interpretation

A shallow embedding of `cmd/seidl/seidl.go`.

Modelling conventions.

* A Go `string` is a Lean `String`, read as its sequence of code points.  For
  well-formed UTF-8 the byte-wise operations of Go's `strings` package used
  here (`Split`, `Contains`, `HasPrefix`, `TrimSpace`, `==`, `<`) agree with
  the same operations on code points.
* `strings.ToLower` maps every code point through `unicode.ToLower`.  That
  table is not part of the repository, so the code-point mapping is a
  parameter `lower : Char → Char` of everything that lowercases.
* `sort.Slice` is not part of the repository either; it is a parameter
  `sortSlice` that takes the comparison and the slice contents, `FetchImages`
  passes it the comparison by `Name` of the source, and theorems state what
  they need of it.
* The network is an oracle: the outcome of `fetch` followed by
  `json.Unmarshal`, indexed by the number of requests made before.
* `main` is a function from the argument list to the trace of observable
  events and the way the process ends.
-/

set_option linter.dupNamespace false

namespace Seidl

/-! ## Strings -/

/-- The code points for which Go's `unicode.IsSpace` holds; `strings.TrimSpace`
removes leading and trailing code points of this set. -/
def isSpace (c : Char) : Bool :=
  let n := c.toNat
  (9 ≤ n && n ≤ 13) || n == 32 || n == 0x85 || n == 0xA0 || n == 0x1680 ||
    (0x2000 ≤ n && n ≤ 0x200A) || n == 0x2028 || n == 0x2029 || n == 0x202F ||
    n == 0x205F || n == 0x3000

/-- Lowercasing of the ASCII letters `A`..`Z`, the ASCII part of
`unicode.ToLower`; used to instantiate the `lower` parameter. -/
def asciiLower (c : Char) : Char :=
  if 65 ≤ c.toNat ∧ c.toNat ≤ 90 then Char.ofNat (c.toNat + 32) else c

/-- Go's `strings.ToLower`: every code point is mapped through `lower`. -/
def toLower (lower : Char → Char) (s : String) : String :=
  String.mk (s.data.map lower)

/-- Splitting a code-point sequence at every occurrence of `sep`; the result
always has one more piece than there are separators. -/
def splitChars (sep : Char) : List Char → List (List Char)
  | [] => [[]]
  | c :: cs =>
    if c = sep then [] :: splitChars sep cs
    else
      match splitChars sep cs with
      | [] => [[c]]
      | piece :: pieces => (c :: piece) :: pieces

/-- Go's `strings.Split(s, ",")`. -/
def splitComma (s : String) : List String :=
  (splitChars ',' s.data).map String.mk

/-- Go's `strings.TrimSpace`. -/
def trimSpace (s : String) : String :=
  String.mk ((s.data.dropWhile isSpace).rdropWhile isSpace)

/-- Substring search on code-point sequences: `needle` is a prefix of some
suffix of `hay`. -/
def containsChars : List Char → List Char → Bool
  | [], needle => needle.isEmpty
  | c :: hay, needle => needle.isPrefixOf (c :: hay) || containsChars hay needle

/-- Go's `strings.Contains(s, substr)`. -/
def contains (s substr : String) : Bool :=
  containsChars s.data substr.data

/-- Go's `strings.HasPrefix(s, prefix)`. -/
def hasPrefix (s pre : String) : Bool :=
  pre.data.isPrefixOf s.data

/-! ## Data model -/

/-- The Go struct `Image`. -/
structure Image where
  Name : String
  URN : String
  Id : String
  State : String
  ChangeInfo : String
  PublishedOn : String
  DeprecateOn : String
  DeleteOn : String
  Environment : String
  Region : String
  Project : String
  deriving DecidableEq, Repr

/-- The Go struct `Images`. -/
structure Images where
  Images : List Image
  deriving DecidableEq, Repr

/-- The Go struct `Config`. -/
structure Config where
  Region : String
  Filter : String
  deriving DecidableEq, Repr

/-- An image of which only the name, region and the two lifecycle dates are
set; the other fields are empty. -/
def mkImage (name region deprecateOn deleteOn : String) : Image :=
  { Name := name, URN := "", Id := "", State := "", ChangeInfo := "",
    PublishedOn := "", DeprecateOn := deprecateOn, DeleteOn := deleteOn,
    Environment := "", Region := region, Project := "" }

/-! ## Image.filter -/

/-- The loop of `Image.filter`: `for _, f := range filters` returning `false`
at the first token that is not contained in `name`. -/
def Image.filterLoop (name : String) : List String → Bool
  | [] => true
  | f :: filters =>
    if !contains name (trimSpace f) then false
    else Image.filterLoop name filters

/-- The method `func (i *Image) filter(filter string) bool`. -/
def Image.filter (lower : Char → Char) (i : Image) (filter : String) : Bool :=
  if filter = "" then true
  else
    let filters := splitComma (toLower lower filter)
    let name := toLower lower i.Name
    Image.filterLoop name filters

/-! ## In-place compaction -/

/-- The in-place compaction loop that `Images.filter`, `Images.filterRegion`,
`Images.filterSUSE` and the deprecation pass of `FetchImages` share:
`for _, val := range s { if keep(val) { s[n] = val; n++ } else { deleted++ } }`.
`arr` is the backing array, `idx` the index the `range` clause reads next,
`remaining` the number of iterations the `range` clause still performs, `n`
the write index.  The counter `deleted` exists only in `Images.filter`; the
other three loops do not have it and their models discard it. -/
def compactLoop (keep : Image → Bool) :
    Nat → Nat → List Image → Nat → Nat → List Image × Nat × Nat
  | 0, _, arr, n, deleted => (arr, n, deleted)
  | remaining + 1, idx, arr, n, deleted =>
    match arr[idx]? with
    | none => (arr, n, deleted)
    | some val =>
      if keep val then
        compactLoop keep remaining (idx + 1) (arr.set n val) (n + 1) deleted
      else
        compactLoop keep remaining (idx + 1) arr n (deleted + 1)

/-- The method `func (i *Images) filter(filter string) int`: the receiver after
the call and the returned count. -/
def Images.filter (lower : Char → Char) (i : Seidl.Images) (filter : String) :
    Seidl.Images × Nat :=
  let r := compactLoop (fun val => val.filter lower filter) i.Images.length 0 i.Images 0 0
  (⟨r.1.take r.2.1⟩, r.2.2)

/-- The method `func (i *Images) filterRegion(region string)`: the receiver
after the call. -/
def Images.filterRegion (i : Seidl.Images) (region : String) : Seidl.Images :=
  if region = "" then i
  else
    let r := compactLoop (fun val => val.Region = region) i.Images.length 0 i.Images 0 0
    ⟨r.1.take r.2.1⟩

/-- The method `func (i *Images) filterSUSE()`: the receiver after the call. -/
def Images.filterSUSE (i : Seidl.Images) : Seidl.Images :=
  let r := compactLoop (fun val => hasPrefix val.Name "suse-") i.Images.length 0 i.Images 0 0
  ⟨r.1.take r.2.1⟩

/-- The spec's construction of a filter pass: a new sequence holding the
retained elements in order. -/
def keepIf (keep : Image → Bool) (images : List Image) : List Image :=
  images.filter keep

/-! ## Environment, FetchImages -/

/-- What the program takes from outside the repository: the code-point table of
`unicode.ToLower`, the function `sort.Slice` (from the comparison `less` and
the contents of the slice to its contents afterwards), and the outcome of `fetch` followed by `json.Unmarshal` for the
image feed of a provider and for the AWS region feed, each indexed by the
number of requests made before. -/
structure Env where
  lower : Char → Char
  sortSlice : (Image → Image → Bool) → List Image → List Image
  images : Nat → String → Except String (List Image)
  regions : Nat → Except String (List String)

/-- The test of the deprecation loop: `continue` on a non-empty `DeleteOn`,
else `continue` on a non-empty `DeprecateOn`, else keep. -/
def notDeprecated (image : Image) : Bool :=
  if image.DeleteOn ≠ "" then false
  else if image.DeprecateOn ≠ "" then false
  else true

/-- The comparison `FetchImages` passes to `sort.Slice`:
`ret.Images[p].Name < ret.Images[q].Name`, on the two elements; Go's `<` on
strings is the lexicographic order of the code-point sequences. -/
def nameLess (p q : Image) : Bool :=
  decide (p.Name.data < q.Name.data)

/-- The part of `FetchImages` after decoding: the deprecation pass, then
`sort.Slice` with the comparison by `Name`. -/
def FetchImages.postprocess (sortSlice : (Image → Image → Bool) → List Image → List Image)
    (ret : Images) : Images :=
  let r := compactLoop notDeprecated ret.Images.length 0 ret.Images 0 0
  ⟨sortSlice nameLess (r.1.take r.2.1)⟩

/-- The function `FetchImages(csp string) (Images, error)`, made as request
number `k`. -/
def FetchImages (env : Env) (k : Nat) (csp : String) : Except String Images :=
  match env.images k csp with
  | .error err => .error err
  | .ok decoded => .ok (FetchImages.postprocess env.sortSlice ⟨decoded⟩)

/-- Insertion of an image into a list sorted by `less`. -/
def insertBy (less : Image → Image → Bool) (a : Image) : List Image → List Image
  | [] => [a]
  | b :: l => if less a b then a :: b :: l else b :: insertBy less a l

/-- Insertion sort by `less`, an instance for the `sortSlice` parameter. -/
def insertionSortBy (less : Image → Image → Bool) : List Image → List Image
  | [] => []
  | a :: l => insertBy less a (insertionSortBy less l)

/-- The function `GetAzureEnvironments`: the static list of names (its error
is always nil). -/
def GetAzureEnvironments : List String :=
  ["Blackforest", "Fairfax", "Mooncake", "PublicAzure"]

/-! ## Provider aliases -/

/-- The function `isGCE`. -/
def isGCE (csp : String) : Bool :=
  csp = "g" || csp = "gce" || csp = "gcp" || csp = "google"

/-- The function `isAzure`. -/
def isAzure (csp : String) : Bool :=
  csp = "m" || csp = "az" || csp = "azure" || csp = "microsoft"

/-- The function `isAWS`. -/
def isAWS (csp : String) : Bool :=
  csp = "a" || csp = "aws" || csp = "ec2" || csp = "amazon"

/-- A provider token: the test `isGCE(arg) || isAzure(arg) || isAWS(arg)`. -/
def isCSP (arg : String) : Bool :=
  isGCE arg || isAzure arg || isAWS arg

/-- A value-consuming flag: the test
`arg == "-f" || arg == "--filter" || arg == "-r" || arg == "--region"`. -/
def isValueFlag (arg : String) : Bool :=
  arg = "-f" || arg = "--filter" || arg = "-r" || arg = "--region"

/-! ## main -/

/-- What the process does that can be observed from outside. -/
inductive Event where
  /-- The text printed by `usage()`. -/
  | usage
  /-- Other text written to standard output. -/
  | stdout (text : String)
  /-- Text written to standard error. -/
  | stderr (text : String)
  /-- A request issued by `fetch(url)`. -/
  | httpGet (url : String)
  /-- A table written to standard output: the header row with these column
  titles, then one row for each image. -/
  | table (columns : List String) (rows : List Image)
  deriving DecidableEq, Repr

/-- How the process ends: `main` returns (status 0), `os.Exit(1)`, or the
run-time panic of an index out of range. -/
inductive Exit where
  | returned
  | exit1
  | indexOutOfRange
  deriving DecidableEq, Repr

/-- A finished run: the events in order, and the end. -/
structure Outcome where
  trace : List Event
  exit : Exit
  deriving DecidableEq, Repr

/-- The state of the execution pass: the global `config`, the number of
requests made so far, and the events so far. -/
structure ExecState where
  config : Config
  calls : Nat
  trace : List Event
  deriving DecidableEq, Repr

/-- The result of running part of the execution pass: the loop goes on with a
state, or the process has ended. -/
inductive Run where
  | done (st : ExecState)
  | halted (o : Outcome)
  deriving DecidableEq, Repr

/-- The state with one more event. -/
def ExecState.emit (st : ExecState) (e : Event) : ExecState :=
  { st with trace := st.trace ++ [e] }

/-- The process ends with one more event. -/
def ExecState.halt (st : ExecState) (e : Event) (x : Exit) : Run :=
  .halted ⟨st.trace ++ [e], x⟩

/-- The URL `FetchImages` requests. -/
def imagesURL (csp : String) : String :=
  "https://susepubliccloudinfo.suse.com/v1/" ++ csp ++ "/images.json"

/-- The URL `GetAWSRegions` requests. -/
def regionsURL : String :=
  "https://susepubliccloudinfo.suse.com/v1/amazon/regions.json"

/-- The line `--version` prints. -/
def versionLine : String :=
  "seidl v0.1 -- https://github.com/grisu48/seidl/\n"

/-- The message of the dangling-argument error. -/
def danglingMessage (dangling : String) : String :=
  "dangling argument: " ++ dangling ++ "\nProgram arguments need to be BEFORE the CSP.\n"

/-- The diagnostic for an empty list, chosen by the count `n` that
`Images.filter` returned. -/
def emptyDiagnostic (n : Nat) : Event :=
  if n = 0 then .stderr "no images found\n"
  else .stderr "no images found (too restrictive filter?)\n"

/-- The branch `isGCE(arg)` of the execution pass. -/
def queryGCE (env : Env) (st : ExecState) : Run :=
  let k := st.calls
  let st := { st.emit (.httpGet (imagesURL "google")) with calls := k + 1 }
  match FetchImages env k "google" with
  | .error err => st.halt (.stderr ("error: " ++ err ++ "\n")) .exit1
  | .ok images =>
    let r := images.filter env.lower st.config.Filter
    if r.1.Images.length = 0 then st.halt (emptyDiagnostic r.2) .exit1
    else .done (st.emit (.table ["Name", "Project", "State"] r.1.Images))

/-- The branch `isAWS(arg)` of the execution pass. -/
def queryAWS (env : Env) (st : ExecState) : Run :=
  let k := st.calls
  let st := { st.emit (.httpGet (imagesURL "amazon")) with calls := k + 1 }
  match FetchImages env k "amazon" with
  | .error err => st.halt (.stderr ("error: " ++ err ++ "\n")) .exit1
  | .ok images =>
    let r := images.filter env.lower st.config.Filter
    if r.1.Images.length = 0 then st.halt (emptyDiagnostic r.2) .exit1
    else if st.config.Region = "" then
      .done (st.emit (.table ["ID", "Name", "Region", "State"] r.1.Images))
    else
      let images := r.1.filterRegion st.config.Region
      .done (st.emit (.table ["ID", "Name", "State"] images.Images))

/-- The branch `isAzure(arg)` of the execution pass. -/
def queryAzure (env : Env) (st : ExecState) : Run :=
  let k := st.calls
  let st := { st.emit (.httpGet (imagesURL "microsoft")) with calls := k + 1 }
  match FetchImages env k "microsoft" with
  | .error err => st.halt (.stderr ("error: " ++ err ++ "\n")) .exit1
  | .ok images =>
    let images := images.filterSUSE
    let r := images.filter env.lower st.config.Filter
    if r.1.Images.length = 0 then st.halt (emptyDiagnostic r.2) .exit1
    else .done (st.emit (.table ["URN", "Name", "State"] r.1.Images))

/-- The `else` branch of `arg[0] == '-'`: a provider token is expected. -/
def queryCSP (env : Env) (arg : String) (st : ExecState) : Run :=
  if isGCE arg then queryGCE env st
  else if isAWS arg then queryAWS env st
  else if isAzure arg then queryAzure env st
  else st.halt (.stderr "error: invalid CSP\n") .exit1

/-- The branch `arg == "--list-aws-regions"` of the execution pass. -/
def listAWSRegions (env : Env) (st : ExecState) : Run :=
  let k := st.calls
  let st := { st.emit (.httpGet regionsURL) with calls := k + 1 }
  match env.regions k with
  | .error err => st.halt (.stderr ("error fetching regions: " ++ err ++ "\n")) .exit1
  | .ok names => .done { st with trace := st.trace ++ names.map fun n => .stdout (n ++ "\n") }

/-- The branch `arg == "--list-az-envs"` of the execution pass. -/
def listAzEnvs (st : ExecState) : ExecState :=
  { st with trace := st.trace ++ GetAzureEnvironments.map fun n => .stdout (n ++ "\n") }

/-- The validation loop of `main`, on the arguments from index `i` on:
`for i := 0; i < len(args); i++`, where a value-consuming flag does `i++`. -/
def danglingScan : List String → String → String
  | [], dangling => dangling
  | arg :: rest, dangling =>
    if arg = "" then danglingScan rest dangling
    else if arg = "-f" ∨ arg = "--filter" ∨ arg = "-r" ∨ arg = "--region" then
      let dangling := if isGCE arg || isAzure arg || isAWS arg then "" else arg
      match rest with
      | [] => dangling
      | _ :: rest => danglingScan rest dangling
    else
      let dangling := if isGCE arg || isAzure arg || isAWS arg then "" else dangling
      danglingScan rest dangling

/-- The execution loop of `main`, on the arguments from index `i` on. -/
def execPass (env : Env) : List String → ExecState → Run
  | [], st => .done st
  | arg :: rest, st =>
    if arg = "" then execPass env rest st
    else if arg.data.head? = some '-' then
      if arg = "-h" ∨ arg = "--help" then .halted ⟨st.trace ++ [.usage], .returned⟩
      else if arg = "--version" then .halted ⟨st.trace ++ [.stdout versionLine], .returned⟩
      else if arg = "-f" ∨ arg = "--filter" then
        match rest with
        | [] => .halted ⟨st.trace, .indexOutOfRange⟩
        | value :: rest =>
          execPass env rest { st with config := { st.config with Filter := value } }
      else if arg = "-r" ∨ arg = "--region" then
        match rest with
        | [] => .halted ⟨st.trace, .indexOutOfRange⟩
        | value :: rest =>
          execPass env rest { st with config := { st.config with Region := value } }
      else if arg = "--list-az-envs" then execPass env rest (listAzEnvs st)
      else if arg = "--list-aws-regions" then
        match listAWSRegions env st with
        | .halted o => .halted o
        | .done st => execPass env rest st
      else st.halt (.stderr ("invalid parameter: " ++ arg ++ "\n")) .exit1
    else
      match queryCSP env arg st with
      | .halted o => .halted o
      | .done st => execPass env rest st

/-- The state the execution pass starts in: the zero value of `config`, no
request made, nothing printed. -/
def ExecState.initial : ExecState :=
  ⟨⟨"", ""⟩, 0, []⟩

/-- The end of `main` after the execution loop. -/
def Run.finish : Run → Outcome
  | .done st => ⟨st.trace, .returned⟩
  | .halted o => o

/-- The function `main`, on `os.Args[1:]`. -/
def main (env : Env) (args : List String) : Outcome :=
  if args.length < 1 then ⟨[.usage], .exit1⟩
  else
    let dangling := danglingScan args ""
    if dangling ≠ "" then ⟨[.stderr (danglingMessage dangling)], .exit1⟩
    else (execPass env args ExecState.initial).finish

/-- An environment for examples: ASCII lowercasing, insertion sort, the given
image feed for every provider and request, and an empty region feed. -/
def Env.example (feed : List Image) : Env :=
  ⟨asciiLower, insertionSortBy, fun _ _ => .ok feed, fun _ => .ok []⟩

/-! ## Specification vocabulary for the argument scan -/

/-- The arguments a left-to-right scan encounters when every value-consuming
flag also consumes the argument that follows it as its value: the values are
not encountered. -/
def encountered : List String → List String
  | [] => []
  | arg :: rest =>
    if isValueFlag arg then
      arg :: (match rest with
        | [] => []
        | _ :: rest => encountered rest)
    else arg :: encountered rest

/-- One step of remembering the pending flag over the encountered arguments: a
value-consuming flag becomes pending, a provider token clears it. -/
def pendingStep (pending : String) (tok : String) : String :=
  if isValueFlag tok then tok else if isCSP tok then "" else pending

/-- Sequencing of two parts of the execution pass: the second part runs from
the state the first part ends in, unless the process has ended. -/
def Run.andThen (r : Run) (f : ExecState → Run) : Run :=
  match r with
  | .done st => f st
  | .halted o => .halted o

/-- The value-consuming flags a left-to-right scan processes, each with the
argument that follows it as its value. -/
def processedFlags : List String → List (String × String)
  | [] => []
  | [_] => []
  | arg :: value :: rest =>
    if isValueFlag arg then (arg, value) :: processedFlags rest
    else processedFlags (value :: rest)

/-- The test `arg == "-f" || arg == "--filter"`. -/
def isFilterFlag (arg : String) : Bool :=
  arg = "-f" || arg = "--filter"

/-- The test `arg == "-r" || arg == "--region"`. -/
def isRegionFlag (arg : String) : Bool :=
  arg = "-r" || arg = "--region"

/-- The value that followed the last processed flag of the given kind, or
`default` when no such flag was processed. -/
def lastValueOf (isFlag : String → Bool) (default : String) (args : List String) : String :=
  (((processedFlags args).filter fun p => isFlag p.1).getLast?.map Prod.snd).getD default

/-- The flags the execution pass has a branch for. -/
def isRecognizedFlag (arg : String) : Bool :=
  arg = "-h" || arg = "--help" || arg = "--version" || arg = "-f" || arg = "--filter" ||
    arg = "-r" || arg = "--region" || arg = "--list-az-envs" || arg = "--list-aws-regions"

/-- An unrecognized token: a non-empty argument that starts with a dash and is
no recognized flag, or does not start with a dash and is no provider alias. -/
def isUnrecognized (arg : String) : Bool :=
  arg ≠ "" && (if arg.data.head? = some '-' then !isRecognizedFlag arg else !isCSP arg)

/-- The scan of these arguments ends at their end: every value-consuming flag
it encounters has its value among them, so the argument that follows them is
at an argument position. -/
def endsAtArgument : List String → Bool
  | [] => true
  | [arg] => !isValueFlag arg
  | arg :: value :: rest =>
    if isValueFlag arg then endsAtArgument rest else endsAtArgument (value :: rest)

/-! ## Specification vocabulary for the filter passes -/

/-- Ascending (non-decreasing) order by `Name`: no image is followed by one
whose name is smaller in Go's order on strings. -/
def SortedByName (l : List Image) : Prop :=
  l.Pairwise fun a b => ¬ b.Name.data < a.Name.data

instance (l : List Image) : Decidable (SortedByName l) := by
  unfold SortedByName
  infer_instance

/-- What `sort.Slice` asks of its comparison: a strict weak ordering, that is,
`less` is irreflexive and transitive, and so is being not less. -/
def StrictWeakOrdering (less : Image → Image → Bool) : Prop :=
  (∀ a, less a a = false) ∧
  (∀ a b c, less a b = true → less b c = true → less a c = true) ∧
  (∀ a b c, less a b = false → less b c = false → less a c = false)

/-- One of the filter passes `main` applies to a fetched list. -/
inductive Pass where
  | tokens (filter : String)
  | region (region : String)
  | suse
  deriving DecidableEq, Repr

/-- Running a pass: `Images.filter` (its count dropped), `Images.filterRegion`
or `Images.filterSUSE`. -/
def Pass.apply (lower : Char → Char) : Pass → Images → Images
  | .tokens f, i => (i.filter lower f).1
  | .region r, i => i.filterRegion r
  | .suse, i => i.filterSUSE

/-- Running a sequence of passes, the first of the list first. -/
def applyPasses (lower : Char → Char) (passes : List Pass) (i : Images) : Images :=
  passes.foldl (fun i pass => pass.apply lower i) i

/-- The images a pass retains. -/
def Pass.keeps (lower : Char → Char) : Pass → Image → Bool
  | .tokens f, image => image.filter lower f
  | .region r, image => r = "" || image.Region = r
  | .suse, image => hasPrefix image.Name "suse-"

/-- The events of a part of the execution pass, whether or not the process
has ended. -/
def Run.trace : Run → List Event
  | .done st => st.trace
  | .halted o => o.trace

/-- Every table among the events has its rows in ascending order by `Name`. -/
def TablesSorted (trace : List Event) : Prop :=
  ∀ columns rows, Event.table columns rows ∈ trace → SortedByName rows

/-- The process has ended with status 1, and every request it made was made
before (is among `before`) or is due to a provider token or
`--list-aws-regions` among `toks`. -/
def Run.FatalAfter (r : Run) (before : List Event) (toks : List String) : Prop :=
  r.finish.exit = .exit1 ∧
  ∀ url, Event.httpGet url ∈ r.trace →
    Event.httpGet url ∈ before ∨ ∃ a ∈ toks, isCSP a = true ∨ a = "--list-aws-regions"

/-! ## Strings: lemmas -/

theorem containsChars_iff_infix (hay needle : List Char) :
    containsChars hay needle = true ↔ needle <:+: hay := by
  induction hay with
  | nil => simp [containsChars, List.isEmpty_iff]
  | cons c hay ih =>
    simp only [containsChars, Bool.or_eq_true, ih, List.infix_cons_iff,
      List.isPrefixOf_iff_prefix]

theorem contains_iff_infix (s substr : String) :
    contains s substr = true ↔ substr.data <:+: s.data :=
  containsChars_iff_infix s.data substr.data

theorem filterLoop_iff (name : String) (filters : List String) :
    Image.filterLoop name filters = true ↔
      ∀ f ∈ filters, contains name (trimSpace f) = true := by
  induction filters with
  | nil => simp [Image.filterLoop]
  | cons f filters ih =>
    cases h : contains name (trimSpace f) <;> simp [Image.filterLoop, h, ih]

theorem splitChars_ne_nil (sep : Char) (l : List Char) : splitChars sep l ≠ [] := by
  cases l with
  | nil => simp [splitChars]
  | cons c cs =>
    simp only [splitChars]
    split
    · simp
    · split <;> simp

theorem splitChars_map (lower : Char → Char) (sep : Char)
    (hsep : ∀ c, lower c = sep ↔ c = sep) (l : List Char) :
    splitChars sep (l.map lower) = (splitChars sep l).map (List.map lower) := by
  induction l with
  | nil => simp [splitChars]
  | cons c cs ih =>
    simp only [List.map_cons, splitChars, hsep, ih]
    by_cases h : c = sep
    · simp [h]
    · simp only [h, if_false]
      cases hs : splitChars sep cs with
      | nil => exact absurd hs (splitChars_ne_nil sep cs)
      | cons piece pieces => simp

theorem splitChars_append (sep : Char) (a b : List Char) :
    splitChars sep (a ++ sep :: b) = splitChars sep a ++ splitChars sep b := by
  induction a with
  | nil => simp [splitChars]
  | cons c cs ih =>
    by_cases h : c = sep
    · simp [splitChars, h, ih]
    · cases hs : splitChars sep cs with
      | nil => exact absurd hs (splitChars_ne_nil sep cs)
      | cons piece pieces =>
        rw [List.cons_append, splitChars, if_neg h, ih, hs, splitChars, if_neg h, hs]
        rfl

theorem splitChars_of_not_mem (sep : Char) (l : List Char) (h : sep ∉ l) :
    splitChars sep l = [l] := by
  induction l with
  | nil => simp [splitChars]
  | cons c cs ih =>
    simp only [List.mem_cons, not_or] at h
    have hc : ¬ c = sep := fun e => h.1 e.symm
    simp [splitChars, hc, ih h.2]

theorem dropWhile_isSpace_map (lower : Char → Char)
    (hspace : ∀ c, isSpace (lower c) = isSpace c) (l : List Char) :
    (l.map lower).dropWhile isSpace = (l.dropWhile isSpace).map lower := by
  induction l with
  | nil => simp
  | cons c cs ih =>
    simp only [List.map_cons, List.dropWhile_cons, hspace]
    split
    · exact ih
    · simp

theorem rdropWhile_isSpace_map (lower : Char → Char)
    (hspace : ∀ c, isSpace (lower c) = isSpace c) (l : List Char) :
    (l.map lower).rdropWhile isSpace = (l.rdropWhile isSpace).map lower := by
  simp only [List.rdropWhile, ← List.map_reverse, dropWhile_isSpace_map lower hspace]

theorem trimSpace_toLower (lower : Char → Char)
    (hspace : ∀ c, isSpace (lower c) = isSpace c) (s : String) :
    trimSpace (toLower lower s) = toLower lower (trimSpace s) := by
  simp only [trimSpace, toLower, dropWhile_isSpace_map lower hspace,
    rdropWhile_isSpace_map lower hspace]

theorem splitComma_toLower (lower : Char → Char)
    (hcomma : ∀ c, lower c = ',' ↔ c = ',') (s : String) :
    splitComma (toLower lower s) = (splitComma s).map (toLower lower) := by
  simp only [splitComma, toLower, splitChars_map lower ',' hcomma, List.map_map]
  rfl

theorem asciiLower_of_upper (c : Char) (h : 65 ≤ c.toNat ∧ c.toNat ≤ 90) :
    asciiLower c ≠ ',' ∧ c ≠ ',' ∧ isSpace (asciiLower c) = false ∧ isSpace c = false := by
  obtain ⟨n, hn⟩ : ∃ n, n = c.toNat := ⟨_, rfl⟩
  have hc : c = Char.ofNat n := by rw [hn, Char.ofNat_toNat]
  rw [← hn] at h
  obtain ⟨h1, h2⟩ := h
  clear hn
  subst hc
  interval_cases n <;> decide

theorem asciiLower_comma (c : Char) : asciiLower c = ',' ↔ c = ',' := by
  by_cases h : 65 ≤ c.toNat ∧ c.toNat ≤ 90
  · have := asciiLower_of_upper c h
    constructor
    · intro e; exact absurd e this.1
    · intro e; exact absurd e this.2.1
  · simp [asciiLower, h]

theorem asciiLower_space (c : Char) : isSpace (asciiLower c) = isSpace c := by
  by_cases h : 65 ≤ c.toNat ∧ c.toNat ≤ 90
  · have := asciiLower_of_upper c h
    rw [this.2.2.1, this.2.2.2]
  · simp [asciiLower, h]

theorem splitComma_pair (a b : String) (ha : ',' ∉ a.data) (hb : ',' ∉ b.data) :
    splitComma (a ++ "," ++ b) = [a, b] := by
  have hd : (a ++ "," ++ b).data = a.data ++ ',' :: b.data := by
    simp [String.data_append]
  simp only [splitComma, hd, splitChars_append, splitChars_of_not_mem _ _ ha,
    splitChars_of_not_mem _ _ hb]
  rfl

theorem image_filter_nonempty (lower : Char → Char)
    (hcomma : ∀ c, lower c = ',' ↔ c = ',')
    (hspace : ∀ c, isSpace (lower c) = isSpace c)
    (i : Image) (filter : String) (hne : filter ≠ "") :
    Image.filter lower i filter = true ↔
      ∀ tok ∈ splitComma filter,
        (toLower lower (trimSpace tok)).data <:+: (toLower lower i.Name).data := by
  simp only [Image.filter, if_neg hne, filterLoop_iff, splitComma_toLower lower hcomma,
    List.forall_mem_map, trimSpace_toLower lower hspace, contains_iff_infix]

/-! ## C1 -/

/-- C1: for a non-empty filter string, `Image.filter` returns true exactly when
the lowercased name contains, as a substring, the trimmed and lowercased form
of every token obtained by splitting the filter at commas; for the empty
filter it returns true; for a filter `a,b` of two comma-free tokens the
image survives exactly when its lowercased name contains both tokens
(trimmed, lowercased), and so for the literal filter `a,b` exactly when it
contains `a` and `b`.  The code lowercases before it splits and trims; that
this is the same needs only that lowercasing maps no other code point to a
comma and keeps white space apart from the rest, as `unicode.ToLower` does
(which also leaves the letters `a` and `b` as they are). -/
theorem image_filter_iff_all_tokens (lower : Char → Char)
    (hcomma : ∀ c, lower c = ',' ↔ c = ',')
    (hspace : ∀ c, isSpace (lower c) = isSpace c)
    (i : Image) (filter : String) :
    (filter ≠ "" →
      (Image.filter lower i filter = true ↔
        ∀ tok ∈ splitComma filter,
          (toLower lower (trimSpace tok)).data <:+: (toLower lower i.Name).data)) ∧
    Image.filter lower i "" = true ∧
    (∀ a b : String, ',' ∉ a.data → ',' ∉ b.data →
      (Image.filter lower i (a ++ "," ++ b) = true ↔
        (toLower lower (trimSpace a)).data <:+: (toLower lower i.Name).data ∧
        (toLower lower (trimSpace b)).data <:+: (toLower lower i.Name).data)) ∧
    (lower 'a' = 'a' → lower 'b' = 'b' →
      (Image.filter lower i "a,b" = true ↔
        "a".data <:+: (toLower lower i.Name).data ∧
        "b".data <:+: (toLower lower i.Name).data)) := by
  have hpair : ∀ a b : String, ',' ∉ a.data → ',' ∉ b.data →
      (Image.filter lower i (a ++ "," ++ b) = true ↔
        (toLower lower (trimSpace a)).data <:+: (toLower lower i.Name).data ∧
        (toLower lower (trimSpace b)).data <:+: (toLower lower i.Name).data) := by
    intro a b ha hb
    have hne : a ++ "," ++ b ≠ "" := by
      intro e
      have := congrArg String.data e
      simp [String.data_append] at this
    rw [image_filter_nonempty lower hcomma hspace i _ hne, splitComma_pair a b ha hb]
    simp
  refine ⟨image_filter_nonempty lower hcomma hspace i filter, by simp [Image.filter], hpair, ?_⟩
  intro hla hlb
  have hab := hpair "a" "b" (by decide) (by decide)
  have ha : toLower lower (trimSpace "a") = "a" := by
    have ht : trimSpace "a" = "a" := by decide
    rw [ht]
    show String.mk [lower 'a'] = "a"
    rw [hla]
  have hb : toLower lower (trimSpace "b") = "b" := by
    have ht : trimSpace "b" = "b" := by decide
    rw [ht]
    show String.mk [lower 'b'] = "b"
    rw [hlb]
  rw [ha, hb] at hab
  exact hab

/-- C1 at ASCII lowercasing, the image named `SLES-15-SP2` and the filter
`Sles, 15-sp2`: the image survives, and every token is contained. -/
theorem image_filter_iff_all_tokens_witness :
    (∀ c, asciiLower c = ',' ↔ c = ',') ∧
    (∀ c, isSpace (asciiLower c) = isSpace c) ∧
    asciiLower 'a' = 'a' ∧ asciiLower 'b' = 'b' ∧
    ("Sles, 15-sp2" ≠ "" ∧
     Image.filter asciiLower (mkImage "SLES-15-SP2" "" "" "") "Sles, 15-sp2" = true ∧
     ∀ tok ∈ splitComma "Sles, 15-sp2",
        (toLower asciiLower (trimSpace tok)).data <:+:
          (toLower asciiLower (mkImage "SLES-15-SP2" "" "" "").Name).data) :=
  ⟨asciiLower_comma, asciiLower_space, by decide, by decide, by decide, by decide,
    ((image_filter_iff_all_tokens asciiLower asciiLower_comma asciiLower_space
      (mkImage "SLES-15-SP2" "" "" "") "Sles, 15-sp2").1 (by decide)).1 (by decide)⟩

/-! ## The compaction loop: lemmas -/

theorem take_succ_set (arr : List Image) (n : Nat) (val : Image) (h : n < arr.length) :
    (arr.set n val).take (n + 1) = arr.take n ++ [val] := by
  rw [List.take_succ, List.getElem?_set_self h]
  have hle : n ≤ arr.length := Nat.le_of_lt h
  rw [List.set_eq_take_append_cons_drop, if_pos h, List.take_append_eq_append_take]
  simp [List.length_take, Nat.min_eq_left hle]

/-- The invariant of the compaction loop: when the write index is not ahead
of the read index and `remaining` iterations are left up to the end of the
array, the loop ends with the first `n` cells followed by the kept elements
of the unread part, and the counter grows by the number of unread elements
that are not kept. -/
theorem compactLoop_spec (keep : Image → Bool) :
    ∀ (remaining idx : Nat) (arr : List Image) (n deleted : Nat),
      n ≤ idx → idx + remaining = arr.length →
      (compactLoop keep remaining idx arr n deleted).1.take
          (compactLoop keep remaining idx arr n deleted).2.1 =
        arr.take n ++ (arr.drop idx).filter keep ∧
      (compactLoop keep remaining idx arr n deleted).2.2 +
          ((arr.drop idx).filter keep).length = deleted + remaining := by
  intro remaining
  induction remaining with
  | zero =>
    intro idx arr n deleted _ hlen
    have hdrop : arr.drop idx = [] := List.drop_eq_nil_of_le (by omega)
    simp [compactLoop, hdrop]
  | succ remaining ih =>
    intro idx arr n deleted hn hlen
    have hidx : idx < arr.length := by omega
    have hcons : arr.drop idx = arr[idx] :: arr.drop (idx + 1) := List.drop_eq_getElem_cons hidx
    rw [compactLoop, List.getElem?_eq_getElem hidx]
    by_cases hk : keep arr[idx] = true
    · simp only [hk, if_true]
      have hstep := ih (idx + 1) (arr.set n arr[idx]) (n + 1) deleted (by omega)
        (by rw [List.length_set]; omega)
      rw [List.drop_set_of_lt _ _ (by omega : n < idx + 1),
        take_succ_set arr n _ (by omega)] at hstep
      rw [hcons, List.filter_cons_of_pos hk]
      refine ⟨by rw [hstep.1]; simp, ?_⟩
      have := hstep.2
      simp only [List.length_cons]
      omega
    · simp only [hk, Bool.false_eq_true, if_false]
      have hstep := ih (idx + 1) arr n (deleted + 1) (by omega) (by omega)
      rw [hcons, List.filter_cons_of_neg hk]
      refine ⟨hstep.1, ?_⟩
      have := hstep.2
      omega

/-- A whole run of the compaction loop over a slice leaves `keepIf` of it and
counts the rest. -/
theorem compactLoop_whole (keep : Image → Bool) (arr : List Image) :
    (compactLoop keep arr.length 0 arr 0 0).1.take (compactLoop keep arr.length 0 arr 0 0).2.1 =
        keepIf keep arr ∧
      (compactLoop keep arr.length 0 arr 0 0).2.2 + (keepIf keep arr).length = arr.length := by
  have h := compactLoop_spec keep arr.length 0 arr 0 0 (Nat.le_refl 0) (by omega)
  simpa [keepIf] using h

/-! ## C2 -/

/-- C2: the in-place loop of `Images.filter` leaves exactly the list a fresh
keep-if-predicate construction builds from the images satisfying
`Image.filter` (same elements, same order, same multiplicity), and the
returned count plus the length of the result is the length of the original
list. -/
theorem images_filter_refines_keepIf (lower : Char → Char) (i : Images) (filter : String) :
    (i.filter lower filter).1.Images = keepIf (fun val => val.filter lower filter) i.Images ∧
    (i.filter lower filter).2 + (i.filter lower filter).1.Images.length = i.Images.length := by
  have h := compactLoop_whole (fun val => val.filter lower filter) i.Images
  refine ⟨h.1, ?_⟩
  have h2 := h.2
  simp only [Images.filter]
  rw [h.1]
  exact h2

/-! ## C3 -/

theorem insertBy_perm (less : Image → Image → Bool) (a : Image) (l : List Image) :
    (insertBy less a l).Perm (a :: l) := by
  induction l with
  | nil => simp [insertBy]
  | cons b l ih =>
    simp only [insertBy]
    split
    · exact List.Perm.refl _
    · exact ((List.Perm.cons b ih).trans (List.Perm.swap a b l))

theorem insertionSortBy_perm (less : Image → Image → Bool) (l : List Image) :
    (insertionSortBy less l).Perm l := by
  induction l with
  | nil => simp [insertionSortBy]
  | cons a l ih =>
    simp only [insertionSortBy]
    exact (insertBy_perm less a _).trans (List.Perm.cons a ih)

theorem notDeprecated_iff (image : Image) :
    notDeprecated image = true ↔ image.DeleteOn = "" ∧ image.DeprecateOn = "" := by
  unfold notDeprecated
  by_cases h1 : image.DeleteOn = "" <;> by_cases h2 : image.DeprecateOn = "" <;> simp [h1, h2]

/-- C3: when `sort.Slice` with the comparison by `Name` permutes its slice, for
every decoded image list the
list `FetchImages` returns has no image with a non-empty `DeleteOn` or
`DeprecateOn`, and is a permutation of the decoded images whose `DeleteOn`
and `DeprecateOn` are both empty. -/
theorem fetchImages_drops_exactly_deprecated (env : Env)
    (hsort : ∀ l, (env.sortSlice nameLess l).Perm l)
    (k : Nat) (csp : String) (decoded : List Image)
    (hdecoded : env.images k csp = .ok decoded) :
    ∃ ret : Images, FetchImages env k csp = .ok ret ∧
      (∀ image ∈ ret.Images, ¬ (image.DeleteOn ≠ "" ∨ image.DeprecateOn ≠ "")) ∧
      ret.Images.Perm
        (decoded.filter fun image => decide (image.DeleteOn = "" ∧ image.DeprecateOn = "")) := by
  have hfilter : (decoded.filter fun image =>
      decide (image.DeleteOn = "" ∧ image.DeprecateOn = "")) = keepIf notDeprecated decoded := by
    unfold keepIf
    congr 1
    funext image
    rw [Bool.eq_iff_iff]
    simp [notDeprecated_iff]
  have hloop := (compactLoop_whole notDeprecated decoded).1
  have hperm : (FetchImages.postprocess env.sortSlice ⟨decoded⟩).Images.Perm
      (keepIf notDeprecated decoded) := by
    simp only [FetchImages.postprocess, hloop]
    exact hsort _
  refine ⟨FetchImages.postprocess env.sortSlice ⟨decoded⟩, by simp [FetchImages, hdecoded], ?_, ?_⟩
  · intro image hmem
    have hkept : image ∈ keepIf notDeprecated decoded := hperm.subset hmem
    have hnd : notDeprecated image = true := by
      simp only [keepIf, List.mem_filter] at hkept
      exact hkept.2
    have := (notDeprecated_iff image).1 hnd
    simp [this.1, this.2]
  · rw [hfilter]
    exact hperm

/-- C3 with insertion sort for `sort.Slice` and a feed of four images of which
one is marked for deletion and one deprecated. -/
theorem fetchImages_drops_exactly_deprecated_witness :
    (∀ l, ((Env.example [mkImage "sles-b" "" "" "", mkImage "sles-x" "" "" "2021",
        mkImage "sles-a" "" "" "", mkImage "sles-y" "" "2020" ""]).sortSlice nameLess l).Perm l) ∧
    (Env.example [mkImage "sles-b" "" "" "", mkImage "sles-x" "" "" "2021",
        mkImage "sles-a" "" "" "", mkImage "sles-y" "" "2020" ""]).images 0 "google" =
      .ok [mkImage "sles-b" "" "" "", mkImage "sles-x" "" "" "2021",
        mkImage "sles-a" "" "" "", mkImage "sles-y" "" "2020" ""] ∧
    FetchImages (Env.example [mkImage "sles-b" "" "" "", mkImage "sles-x" "" "" "2021",
        mkImage "sles-a" "" "" "", mkImage "sles-y" "" "2020" ""]) 0 "google" =
      .ok ⟨[mkImage "sles-a" "" "" "", mkImage "sles-b" "" "" ""]⟩ ∧
    ∃ ret : Images,
      FetchImages (Env.example [mkImage "sles-b" "" "" "", mkImage "sles-x" "" "" "2021",
        mkImage "sles-a" "" "" "", mkImage "sles-y" "" "2020" ""]) 0 "google" = .ok ret ∧
      (∀ image ∈ ret.Images, ¬ (image.DeleteOn ≠ "" ∨ image.DeprecateOn ≠ "")) ∧
      ret.Images.Perm
        ([mkImage "sles-b" "" "" "", mkImage "sles-x" "" "" "2021",
          mkImage "sles-a" "" "" "", mkImage "sles-y" "" "2020" ""].filter
          fun image => decide (image.DeleteOn = "" ∧ image.DeprecateOn = "")) :=
  ⟨insertionSortBy_perm nameLess, rfl,
    by simp only [FetchImages, Env.example]; exact congrArg _ (by decide),
    fetchImages_drops_exactly_deprecated _ (insertionSortBy_perm nameLess) 0 "google" _ rfl⟩

/-! ## C4 -/

/-- C4: `Images.filterRegion` with the empty region leaves the list unchanged,
and with a non-empty region leaves exactly the images whose `Region` equals
that string, in their original order. -/
theorem filterRegion_exact (i : Images) (region : String) :
    i.filterRegion "" = i ∧
    (region ≠ "" →
      (i.filterRegion region).Images =
        i.Images.filter fun val => decide (val.Region = region)) := by
  refine ⟨by simp [Images.filterRegion], ?_⟩
  intro hne
  simp only [Images.filterRegion, if_neg hne]
  exact (compactLoop_whole (fun val => decide (val.Region = region)) i.Images).1

/-- C4 at the region `eu-west-1` and three images, one of them in a region
that differs only in case. -/
theorem filterRegion_exact_witness :
    "eu-west-1" ≠ "" ∧
    (Images.filterRegion ⟨[mkImage "a" "eu-west-1" "" "", mkImage "b" "EU-west-1" "" "",
        mkImage "c" "eu-west-1" "" ""]⟩ "eu-west-1").Images =
      [mkImage "a" "eu-west-1" "" "", mkImage "c" "eu-west-1" "" ""] ∧
    (Images.filterRegion ⟨[mkImage "a" "eu-west-1" "" "", mkImage "b" "EU-west-1" "" "",
        mkImage "c" "eu-west-1" "" ""]⟩ "eu-west-1").Images =
      [mkImage "a" "eu-west-1" "" "", mkImage "b" "EU-west-1" "" "",
        mkImage "c" "eu-west-1" "" ""].filter fun val => decide (val.Region = "eu-west-1") :=
  ⟨by decide, by decide,
    (filterRegion_exact ⟨[mkImage "a" "eu-west-1" "" "", mkImage "b" "EU-west-1" "" "",
        mkImage "c" "eu-west-1" "" ""]⟩ "eu-west-1").2 (by decide)⟩

/-! ## The validation pass: lemmas -/

theorem isValueFlag_iff (arg : String) :
    isValueFlag arg = true ↔ arg = "-f" ∨ arg = "--filter" ∨ arg = "-r" ∨ arg = "--region" := by
  simp [isValueFlag, or_assoc]

theorem isCSP_eq (arg : String) : (isGCE arg || isAzure arg || isAWS arg) = isCSP arg := rfl

theorem isCSP_of_isValueFlag (arg : String) (h : isValueFlag arg = true) : isCSP arg = false := by
  rcases (isValueFlag_iff arg).1 h with e | e | e | e <;> subst e <;> decide

theorem ne_empty_of_isValueFlag (arg : String) (h : isValueFlag arg = true) : arg ≠ "" := by
  rcases (isValueFlag_iff arg).1 h with e | e | e | e <;> subst e <;> decide

theorem encountered_cons_of_not_flag (arg : String) (rest : List String)
    (h : ¬ isValueFlag arg = true) : encountered (arg :: rest) = arg :: encountered rest := by
  rw [encountered.eq_def]
  simp [h]

theorem encountered_flag_value (arg value : String) (rest : List String)
    (h : isValueFlag arg = true) :
    encountered (arg :: value :: rest) = arg :: encountered rest := by
  rw [encountered.eq_def]
  simp [h]

theorem encountered_flag_last (arg : String) (h : isValueFlag arg = true) :
    encountered [arg] = [arg] := by
  rw [encountered.eq_def]
  simp [h]

/-- The validation loop computes the pending flag over the encountered
arguments. -/
theorem danglingScan_eq_foldl :
    ∀ (n : Nat) (args : List String), args.length ≤ n → ∀ dangling : String,
      danglingScan args dangling = (encountered args).foldl pendingStep dangling := by
  intro n
  induction n with
  | zero =>
    intro args hlen dangling
    have : args = [] := List.length_eq_zero.1 (Nat.le_zero.1 hlen)
    subst this
    simp [danglingScan, encountered]
  | succ n ih =>
    intro args hlen dangling
    cases args with
    | nil => simp [danglingScan, encountered]
    | cons arg rest =>
      have hrest : rest.length ≤ n := by simpa using hlen
      by_cases hflag : isValueFlag arg = true
      · have hne := ne_empty_of_isValueFlag arg hflag
        have hcsp := isCSP_of_isValueFlag arg hflag
        have hor := (isValueFlag_iff arg).1 hflag
        have hstep : ∀ d, pendingStep d arg = arg := by
          intro d
          simp [pendingStep, hflag]
        cases rest with
        | nil =>
          rw [encountered_flag_last arg hflag, List.foldl_cons, hstep]
          simp [danglingScan, hne, hor, isCSP_eq, hcsp]
        | cons value rest =>
          have hrest2 : rest.length ≤ n := by
            simp only [List.length_cons] at hrest
            omega
          rw [encountered_flag_value arg value rest hflag, List.foldl_cons, hstep,
            ← ih rest hrest2]
          simp [danglingScan, hne, hor, isCSP_eq, hcsp]
      · have hor : ¬ (arg = "-f" ∨ arg = "--filter" ∨ arg = "-r" ∨ arg = "--region") :=
          fun h => hflag ((isValueFlag_iff arg).2 h)
        have hstep : pendingStep dangling arg = if isCSP arg then "" else dangling := by
          simp [pendingStep, hflag]
        rw [encountered_cons_of_not_flag arg rest hflag, List.foldl_cons, hstep,
          ← ih rest hrest]
        by_cases hempty : arg = ""
        · subst hempty
          have : isCSP "" = false := by decide
          simp [danglingScan, this]
        · simp [danglingScan, hempty, hor, isCSP_eq]

theorem split_concat (l pre post : List String) (t flag : String)
    (h : l ++ [t] = pre ++ flag :: post) :
    (post = [] ∧ flag = t ∧ l = pre) ∨ ∃ post', post = post' ++ [t] ∧ l = pre ++ flag :: post' := by
  rcases List.eq_nil_or_concat post with hp | ⟨post', b, hp⟩
  · subst hp
    have h2 : l ++ [t] = pre ++ [flag] := by simpa using h
    have := List.append_inj' h2 rfl
    exact Or.inl ⟨rfl, by simpa using this.2.symm, this.1⟩
  · rw [List.concat_eq_append] at hp
    subst hp
    have h2 : l ++ [t] = (pre ++ flag :: post') ++ [b] := by simpa using h
    have := List.append_inj' h2 rfl
    have hb : t = b := by simpa using this.2
    subst hb
    exact Or.inr ⟨post', rfl, this.1⟩

/-- A flag is pending after the scan exactly when some encountered
value-consuming flag has no provider token encountered after it. -/
theorem pending_iff (l : List String) :
    l.foldl pendingStep "" ≠ "" ↔
      ∃ pre flag post, l = pre ++ flag :: post ∧ isValueFlag flag = true ∧
        ∀ tok ∈ post, isCSP tok = false := by
  induction l using List.reverseRecOn with
  | nil => simp
  | append_singleton l t ih =>
    rw [List.foldl_append, List.foldl_cons, List.foldl_nil]
    by_cases hflag : isValueFlag t = true
    · have hstep : pendingStep (l.foldl pendingStep "") t = t := by simp [pendingStep, hflag]
      rw [hstep]
      constructor
      · intro _
        exact ⟨l, t, [], rfl, hflag, by simp⟩
      · intro _
        exact ne_empty_of_isValueFlag t hflag
    · by_cases hcsp : isCSP t = true
      · have hstep : pendingStep (l.foldl pendingStep "") t = "" := by
          simp [pendingStep, hflag, hcsp]
        rw [hstep]
        constructor
        · intro h
          exact absurd rfl h
        · rintro ⟨pre, flag, post, hsplit, hf, hpost⟩
          rcases split_concat l pre post t flag hsplit with ⟨_, heq, _⟩ | ⟨post', hp, _⟩
          · rw [heq] at hf
            exact absurd hf hflag
          · have := hpost t (by rw [hp]; simp)
            rw [this] at hcsp
            exact absurd hcsp (by simp)
      · have hstep : pendingStep (l.foldl pendingStep "") t = l.foldl pendingStep "" := by
          simp [pendingStep, hflag, hcsp]
        rw [hstep, ih]
        constructor
        · rintro ⟨pre, flag, post, hsplit, hf, hpost⟩
          refine ⟨pre, flag, post ++ [t], by rw [hsplit]; simp, hf, ?_⟩
          intro tok htok
          rcases List.mem_append.1 htok with h | h
          · exact hpost tok h
          · have : tok = t := by simpa using h
            rw [this]
            simpa using hcsp
        · rintro ⟨pre, flag, post, hsplit, hf, hpost⟩
          rcases split_concat l pre post t flag hsplit with ⟨_, heq, _⟩ | ⟨post', hp, hl⟩
          · rw [heq] at hf
            exact absurd hf hflag
          · refine ⟨pre, flag, post', hl, hf, ?_⟩
            intro tok htok
            exact hpost tok (by rw [hp]; exact List.mem_append_left _ htok)

/-- A pending flag is the last value-consuming flag encountered. -/
theorem pending_eq_last_flag (l : List String) (h : l.foldl pendingStep "" ≠ "") :
    (l.filter isValueFlag).getLast? = some (l.foldl pendingStep "") := by
  induction l using List.reverseRecOn with
  | nil => simp at h
  | append_singleton l t ih =>
    rw [List.foldl_append, List.foldl_cons, List.foldl_nil] at h ⊢
    by_cases hflag : isValueFlag t = true
    · have hstep : pendingStep (l.foldl pendingStep "") t = t := by simp [pendingStep, hflag]
      rw [hstep, List.filter_append]
      simp [hflag]
    · by_cases hcsp : isCSP t = true
      · have hstep : pendingStep (l.foldl pendingStep "") t = "" := by
          simp [pendingStep, hflag, hcsp]
        rw [hstep] at h
        exact absurd rfl h
      · have hstep : pendingStep (l.foldl pendingStep "") t = l.foldl pendingStep "" := by
          simp [pendingStep, hflag, hcsp]
        rw [hstep] at h ⊢
        rw [List.filter_append]
        simpa [hflag] using ih h

/-! ## C5 -/

/-- C5: for a non-empty argument list, the validation pass fails (the variable
`dangling` is non-empty after the scan) exactly when, among the arguments the
scan encounters, some value-consuming flag has no provider token after it;
when it fails, the flag is the last value-consuming flag encountered, the
process writes to standard error only the text `dangling argument: ` followed
by that flag and the line `Program arguments need to be BEFORE the CSP.`, and
exits with status 1, and no request is made. -/
theorem validation_fails_iff_unanchored_flag (env : Env) (args : List String)
    (hargs : args ≠ []) :
    (danglingScan args "" ≠ "" ↔
      ∃ pre flag post, encountered args = pre ++ flag :: post ∧ isValueFlag flag = true ∧
        ∀ tok ∈ post, isCSP tok = false) ∧
    (danglingScan args "" ≠ "" →
      ((encountered args).filter isValueFlag).getLast? = some (danglingScan args "") ∧
      main env args =
        ⟨[.stderr ("dangling argument: " ++ danglingScan args "" ++
          "\nProgram arguments need to be BEFORE the CSP.\n")], .exit1⟩ ∧
      ∀ url, Event.httpGet url ∉ (main env args).trace) := by
  have hscan := danglingScan_eq_foldl args.length args (Nat.le_refl _) ""
  have hlen : ¬ args.length < 1 := by
    cases args with
    | nil => exact absurd rfl hargs
    | cons a l => simp
  refine ⟨by rw [hscan]; exact pending_iff _, ?_⟩
  intro hfail
  have hmain : main env args =
      ⟨[.stderr ("dangling argument: " ++ danglingScan args "" ++
        "\nProgram arguments need to be BEFORE the CSP.\n")], .exit1⟩ := by
    simp only [main, if_neg hlen, if_pos hfail]
    rfl
  refine ⟨?_, hmain, ?_⟩
  · rw [hscan] at hfail ⊢
    exact pending_eq_last_flag _ hfail
  · intro url
    rw [hmain]
    simp

/-- C5 at `-r eu gce --filter sles`: the scan encounters `-r`, `gce`,
`--filter`; validation fails and the text written names `--filter`. -/
theorem validation_fails_iff_unanchored_flag_witness :
    ["-r", "eu", "gce", "--filter", "sles"] ≠ [] ∧
    encountered ["-r", "eu", "gce", "--filter", "sles"] = ["-r", "gce", "--filter"] ∧
    danglingScan ["-r", "eu", "gce", "--filter", "sles"] "" = "--filter" ∧
    main (Env.example []) ["-r", "eu", "gce", "--filter", "sles"] =
      ⟨[.stderr
        "dangling argument: --filter\nProgram arguments need to be BEFORE the CSP.\n"],
        .exit1⟩ :=
  ⟨by decide, by decide, by decide,
    ((validation_fails_iff_unanchored_flag (Env.example [])
      ["-r", "eu", "gce", "--filter", "sles"] (by decide)).2 (by decide)).2.1⟩

/-! ## The execution pass: lemmas -/

theorem execPass_nil (env : Env) (st : ExecState) : execPass env [] st = .done st := by
  rw [execPass.eq_def]

theorem execPass_empty (env : Env) (rest : List String) (st : ExecState) :
    execPass env ("" :: rest) st = execPass env rest st := by
  rw [execPass.eq_def]
  simp

theorem execPass_help (env : Env) (arg : String) (rest : List String) (st : ExecState)
    (h : arg = "-h" ∨ arg = "--help") :
    execPass env (arg :: rest) st = .halted ⟨st.trace ++ [.usage], .returned⟩ := by
  rw [execPass.eq_def]
  rcases h with e | e <;> subst e <;> simp

theorem execPass_version (env : Env) (rest : List String) (st : ExecState) :
    execPass env ("--version" :: rest) st =
      .halted ⟨st.trace ++ [.stdout versionLine], .returned⟩ := by
  rw [execPass.eq_def]
  simp

theorem execPass_filter (env : Env) (arg value : String) (rest : List String) (st : ExecState)
    (h : arg = "-f" ∨ arg = "--filter") :
    execPass env (arg :: value :: rest) st =
      execPass env rest { st with config := { st.config with Filter := value } } := by
  rw [execPass.eq_def]
  rcases h with e | e <;> subst e <;> simp

theorem execPass_filter_last (env : Env) (arg : String) (st : ExecState)
    (h : arg = "-f" ∨ arg = "--filter") :
    execPass env [arg] st = .halted ⟨st.trace, .indexOutOfRange⟩ := by
  rw [execPass.eq_def]
  rcases h with e | e <;> subst e <;> simp

theorem execPass_region (env : Env) (arg value : String) (rest : List String) (st : ExecState)
    (h : arg = "-r" ∨ arg = "--region") :
    execPass env (arg :: value :: rest) st =
      execPass env rest { st with config := { st.config with Region := value } } := by
  rw [execPass.eq_def]
  rcases h with e | e <;> subst e <;> simp

theorem execPass_region_last (env : Env) (arg : String) (st : ExecState)
    (h : arg = "-r" ∨ arg = "--region") :
    execPass env [arg] st = .halted ⟨st.trace, .indexOutOfRange⟩ := by
  rw [execPass.eq_def]
  rcases h with e | e <;> subst e <;> simp

theorem execPass_listAzEnvs (env : Env) (rest : List String) (st : ExecState) :
    execPass env ("--list-az-envs" :: rest) st = execPass env rest (listAzEnvs st) := by
  rw [execPass.eq_def]
  simp

theorem execPass_listAWSRegions (env : Env) (rest : List String) (st : ExecState) :
    execPass env ("--list-aws-regions" :: rest) st =
      (listAWSRegions env st).andThen (execPass env rest) := by
  rw [execPass.eq_def]
  simp only [Run.andThen]
  cases listAWSRegions env st <;> simp

theorem execPass_unrecognized_flag (env : Env) (arg : String) (rest : List String)
    (st : ExecState) (hne : arg ≠ "") (hdash : arg.data.head? = some '-')
    (h : isRecognizedFlag arg = false) :
    execPass env (arg :: rest) st =
      st.halt (.stderr ("invalid parameter: " ++ arg ++ "\n")) .exit1 := by
  rw [execPass.eq_def]
  simp only [isRecognizedFlag, Bool.or_eq_false_iff, decide_eq_false_iff_not] at h
  simp [hne, hdash, h]

theorem execPass_csp (env : Env) (arg : String) (rest : List String) (st : ExecState)
    (hne : arg ≠ "") (hdash : ¬ arg.data.head? = some '-') :
    execPass env (arg :: rest) st = (queryCSP env arg st).andThen (execPass env rest) := by
  rw [execPass.eq_def]
  simp only [Run.andThen]
  cases queryCSP env arg st <;> simp [hne, hdash]

theorem isRecognizedFlag_iff (arg : String) :
    isRecognizedFlag arg = true ↔
      (arg = "-h" ∨ arg = "--help") ∨ arg = "--version" ∨ (arg = "-f" ∨ arg = "--filter") ∨
        (arg = "-r" ∨ arg = "--region") ∨ arg = "--list-az-envs" ∨ arg = "--list-aws-regions" := by
  simp [isRecognizedFlag, or_assoc]

/-- Induction over the arguments a part of the execution pass runs through
without ending the process: one case for each branch of the loop body that
goes on to the next iteration. -/
theorem execPass_done_induction (env : Env)
    (P : List String → ExecState → ExecState → Prop)
    (hnil : ∀ st, P [] st st)
    (hempty : ∀ rest st0 st, P rest st0 st → P ("" :: rest) st0 st)
    (hfilter : ∀ arg value rest st0 st, (arg = "-f" ∨ arg = "--filter") →
      P rest { st0 with config := { st0.config with Filter := value } } st →
      P (arg :: value :: rest) st0 st)
    (hregion : ∀ arg value rest st0 st, (arg = "-r" ∨ arg = "--region") →
      P rest { st0 with config := { st0.config with Region := value } } st →
      P (arg :: value :: rest) st0 st)
    (hlistAz : ∀ rest st0 st, P rest (listAzEnvs st0) st → P ("--list-az-envs" :: rest) st0 st)
    (hlistAws : ∀ rest st0 st1 st, listAWSRegions env st0 = .done st1 → P rest st1 st →
      P ("--list-aws-regions" :: rest) st0 st)
    (hcsp : ∀ arg rest st0 st1 st, arg ≠ "" → ¬ arg.data.head? = some '-' →
      queryCSP env arg st0 = .done st1 → P rest st1 st → P (arg :: rest) st0 st) :
    ∀ (n : Nat) (pre : List String), pre.length ≤ n → ∀ st0 st,
      execPass env pre st0 = .done st → P pre st0 st := by
  intro n
  induction n with
  | zero =>
    intro pre hlen st0 st h
    have : pre = [] := List.length_eq_zero.1 (Nat.le_zero.1 hlen)
    subst this
    rw [execPass_nil] at h
    cases h
    exact hnil _
  | succ n ih =>
    intro pre hlen st0 st h
    cases pre with
    | nil =>
      rw [execPass_nil] at h
      cases h
      exact hnil _
    | cons arg rest =>
      have hrest : rest.length ≤ n := by simpa using hlen
      by_cases hne : arg = ""
      · subst hne
        rw [execPass_empty] at h
        exact hempty _ _ _ (ih rest hrest _ _ h)
      by_cases hdash : arg.data.head? = some '-'
      · by_cases hrec : isRecognizedFlag arg = true
        · rcases (isRecognizedFlag_iff arg).1 hrec with e | e | e | e | e | e
          · rw [execPass_help env arg rest st0 e] at h
            cases h
          · subst e
            rw [execPass_version] at h
            cases h
          · cases rest with
            | nil =>
              rw [execPass_filter_last env arg st0 e] at h
              cases h
            | cons value rest =>
              rw [execPass_filter env arg value rest st0 e] at h
              have hrest2 : rest.length ≤ n := by
                simp only [List.length_cons] at hrest
                omega
              exact hfilter _ _ _ _ _ e (ih rest hrest2 _ _ h)
          · cases rest with
            | nil =>
              rw [execPass_region_last env arg st0 e] at h
              cases h
            | cons value rest =>
              rw [execPass_region env arg value rest st0 e] at h
              have hrest2 : rest.length ≤ n := by
                simp only [List.length_cons] at hrest
                omega
              exact hregion _ _ _ _ _ e (ih rest hrest2 _ _ h)
          · subst e
            rw [execPass_listAzEnvs] at h
            exact hlistAz _ _ _ (ih rest hrest _ _ h)
          · subst e
            rw [execPass_listAWSRegions] at h
            cases hl : listAWSRegions env st0 with
            | halted o =>
              rw [hl] at h
              cases h
            | done st1 =>
              rw [hl] at h
              exact hlistAws _ _ _ _ hl (ih rest hrest _ _ h)
        · have hrec2 : isRecognizedFlag arg = false := by simpa using hrec
          rw [execPass_unrecognized_flag env arg rest st0 hne hdash hrec2] at h
          cases h
      · rw [execPass_csp env arg rest st0 hne hdash] at h
        cases hq : queryCSP env arg st0 with
        | halted o =>
          rw [hq] at h
          cases h
        | done st1 =>
          rw [hq] at h
          exact hcsp _ _ _ _ _ hne hdash hq (ih rest hrest _ _ h)

theorem queryGCE_done_config (env : Env) (st0 st1 : ExecState)
    (h : queryGCE env st0 = .done st1) : st1.config = st0.config := by
  simp only [queryGCE, ExecState.halt, ExecState.emit] at h
  split at h
  · cases h
  · split_ifs at h
    cases h
    rfl

theorem queryAWS_done_config (env : Env) (st0 st1 : ExecState)
    (h : queryAWS env st0 = .done st1) : st1.config = st0.config := by
  simp only [queryAWS, ExecState.halt, ExecState.emit] at h
  split at h
  · cases h
  · split_ifs at h <;> cases h <;> rfl

theorem queryAzure_done_config (env : Env) (st0 st1 : ExecState)
    (h : queryAzure env st0 = .done st1) : st1.config = st0.config := by
  simp only [queryAzure, ExecState.halt, ExecState.emit] at h
  split at h
  · cases h
  · split_ifs at h
    cases h
    rfl

theorem queryCSP_of_not_isCSP (env : Env) (arg : String) (st : ExecState)
    (h : isCSP arg = false) :
    queryCSP env arg st = st.halt (.stderr "error: invalid CSP\n") .exit1 := by
  simp only [isCSP, Bool.or_eq_false_iff] at h
  simp [queryCSP, h.1.1, h.1.2, h.2]

theorem queryCSP_done (env : Env) (arg : String) (st0 st1 : ExecState)
    (h : queryCSP env arg st0 = .done st1) : isCSP arg = true ∧ st1.config = st0.config := by
  constructor
  · by_contra hc
    have hc2 : isCSP arg = false := by simpa using hc
    rw [queryCSP_of_not_isCSP env arg st0 hc2] at h
    cases h
  · simp only [queryCSP] at h
    split_ifs at h
    · exact queryGCE_done_config env st0 st1 h
    · exact queryAWS_done_config env st0 st1 h
    · exact queryAzure_done_config env st0 st1 h
    · cases h

theorem listAWSRegions_done_config (env : Env) (st0 st1 : ExecState)
    (h : listAWSRegions env st0 = .done st1) : st1.config = st0.config := by
  simp only [listAWSRegions, ExecState.halt, ExecState.emit] at h
  split at h
  · cases h
  · cases h
    rfl

/-- A part of the execution pass that runs through `pre` without ending the
process leaves the rest of the arguments to be run from the state reached. -/
theorem execPass_append (env : Env) (pre : List String) (st0 st : ExecState)
    (h : execPass env pre st0 = .done st) (rest : List String) :
    execPass env (pre ++ rest) st0 = execPass env rest st := by
  refine execPass_done_induction env
    (fun pre st0 st => ∀ rest, execPass env (pre ++ rest) st0 = execPass env rest st)
    ?_ ?_ ?_ ?_ ?_ ?_ ?_ pre.length pre (Nat.le_refl _) st0 st h rest
  · intro st rest
    rfl
  · intro pre st0 st ih rest
    rw [List.cons_append, execPass_empty]
    exact ih rest
  · intro arg value pre st0 st e ih rest
    rw [List.cons_append, List.cons_append, execPass_filter env arg value _ st0 e]
    exact ih rest
  · intro arg value pre st0 st e ih rest
    rw [List.cons_append, List.cons_append, execPass_region env arg value _ st0 e]
    exact ih rest
  · intro pre st0 st ih rest
    rw [List.cons_append, execPass_listAzEnvs]
    exact ih rest
  · intro pre st0 st1 st hl ih rest
    rw [List.cons_append, execPass_listAWSRegions, hl]
    exact ih rest
  · intro arg pre st0 st1 st hne hdash hq ih rest
    rw [List.cons_append, execPass_csp env arg _ st0 hne hdash, hq]
    exact ih rest

theorem processedFlags_cons_of_not_flag (arg : String) (rest : List String)
    (h : ¬ isValueFlag arg = true) : processedFlags (arg :: rest) = processedFlags rest := by
  cases rest with
  | nil => simp [processedFlags]
  | cons value rest => simp [processedFlags, h]

theorem processedFlags_flag_value (arg value : String) (rest : List String)
    (h : isValueFlag arg = true) :
    processedFlags (arg :: value :: rest) = (arg, value) :: processedFlags rest := by
  simp [processedFlags, h]

theorem lastValueOf_cons_of_not_flag (isFlag : String → Bool) (default arg : String)
    (rest : List String) (h : ¬ isValueFlag arg = true) :
    lastValueOf isFlag default (arg :: rest) = lastValueOf isFlag default rest := by
  simp only [lastValueOf, processedFlags_cons_of_not_flag arg rest h]

theorem getLast?_cons_snd (x : String × String) (l : List (String × String)) (default : String) :
    ((x :: l).getLast?.map Prod.snd).getD default = (l.getLast?.map Prod.snd).getD x.2 := by
  cases l with
  | nil => simp
  | cons y l =>
    rw [List.getLast?_cons_cons]
    cases hl : (y :: l).getLast? with
    | none => exact absurd hl (by simp)
    | some z => rfl

theorem lastValueOf_flag_value (isFlag : String → Bool) (default arg value : String)
    (rest : List String) (h : isValueFlag arg = true) :
    lastValueOf isFlag default (arg :: value :: rest) =
      lastValueOf isFlag (if isFlag arg then value else default) rest := by
  simp only [lastValueOf, processedFlags_flag_value arg value rest h]
  by_cases hf : isFlag arg = true
  · rw [List.filter_cons_of_pos (by simpa using hf), getLast?_cons_snd]
    simp [hf]
  · rw [List.filter_cons_of_neg (by simpa using hf)]
    simp [hf]

/-- The configuration after running through `pre`: each field holds the value
that followed the last processed flag for it, or what it held before. -/
theorem execPass_done_config (env : Env) (pre : List String) (st0 st : ExecState)
    (h : execPass env pre st0 = .done st) :
    st.config.Filter = lastValueOf isFilterFlag st0.config.Filter pre ∧
    st.config.Region = lastValueOf isRegionFlag st0.config.Region pre := by
  refine execPass_done_induction env
    (fun pre st0 st =>
      st.config.Filter = lastValueOf isFilterFlag st0.config.Filter pre ∧
      st.config.Region = lastValueOf isRegionFlag st0.config.Region pre)
    ?_ ?_ ?_ ?_ ?_ ?_ ?_ pre.length pre (Nat.le_refl _) st0 st h
  · intro st
    simp [lastValueOf, processedFlags]
  · intro pre st0 st ih
    rw [lastValueOf_cons_of_not_flag _ _ _ _ (by decide),
      lastValueOf_cons_of_not_flag _ _ _ _ (by decide)]
    exact ih
  · intro arg value pre st0 st e ih
    have hflag : isValueFlag arg = true := by rcases e with e | e <;> subst e <;> decide
    have hf : isFilterFlag arg = true := by rcases e with e | e <;> subst e <;> decide
    have hr : isRegionFlag arg = false := by rcases e with e | e <;> subst e <;> decide
    rw [lastValueOf_flag_value _ _ _ _ _ hflag, lastValueOf_flag_value _ _ _ _ _ hflag]
    simpa [hf, hr] using ih
  · intro arg value pre st0 st e ih
    have hflag : isValueFlag arg = true := by rcases e with e | e <;> subst e <;> decide
    have hf : isFilterFlag arg = false := by rcases e with e | e <;> subst e <;> decide
    have hr : isRegionFlag arg = true := by rcases e with e | e <;> subst e <;> decide
    rw [lastValueOf_flag_value _ _ _ _ _ hflag, lastValueOf_flag_value _ _ _ _ _ hflag]
    simpa [hf, hr] using ih
  · intro pre st0 st ih
    rw [lastValueOf_cons_of_not_flag _ _ _ _ (by decide),
      lastValueOf_cons_of_not_flag _ _ _ _ (by decide)]
    exact ih
  · intro pre st0 st1 st hl ih
    rw [lastValueOf_cons_of_not_flag _ _ _ _ (by decide),
      lastValueOf_cons_of_not_flag _ _ _ _ (by decide),
      ← listAWSRegions_done_config env st0 st1 hl]
    exact ih
  · intro arg pre st0 st1 st hne hdash hq ih
    have hcsp := queryCSP_done env arg st0 st1 hq
    have hflag : ¬ isValueFlag arg = true := by
      intro hf
      have := isCSP_of_isValueFlag arg hf
      rw [hcsp.1] at this
      cases this
    rw [lastValueOf_cons_of_not_flag _ _ _ _ hflag,
      lastValueOf_cons_of_not_flag _ _ _ _ hflag, ← hcsp.2]
    exact ih

/-! ## C6 -/

/-- C6 as stated fails: for `-f foo bar gce` the validation loop ends with no
pending flag, and `main` does not end with the dangling-argument error
for `-f`. -/
theorem dash_f_foo_bar_gce_is_not_dangling :
    danglingScan ["-f", "foo", "bar", "gce"] "" = "" ∧
    main (Env.example []) ["-f", "foo", "bar", "gce"] ≠
      ⟨[.stderr (danglingMessage "-f")], .exit1⟩ := by
  decide

/-- C6, amended: for `-f foo bar gce` the validation pass raises no error (the
provider token `gce` follows `-f`); the execution pass sets the filter to
`foo` and ends at `bar` with the invalid-CSP error and status 1; no request
is made. -/
theorem dash_f_foo_bar_gce_invalid_csp (env : Env) :
    danglingScan ["-f", "foo", "bar", "gce"] "" = "" ∧
    execPass env ["-f", "foo"] ExecState.initial = .done ⟨⟨"", "foo"⟩, 0, []⟩ ∧
    main env ["-f", "foo", "bar", "gce"] = ⟨[.stderr "error: invalid CSP\n"], .exit1⟩ ∧
    ∀ url, Event.httpGet url ∉ (main env ["-f", "foo", "bar", "gce"]).trace := by
  have hscan : danglingScan ["-f", "foo", "bar", "gce"] "" = "" := by decide
  have hpre : execPass env ["-f", "foo"] ExecState.initial = .done ⟨⟨"", "foo"⟩, 0, []⟩ := by
    rw [execPass_filter env "-f" "foo" [] _ (Or.inl rfl), execPass_nil]
    rfl
  have hmain : main env ["-f", "foo", "bar", "gce"] =
      ⟨[.stderr "error: invalid CSP\n"], .exit1⟩ := by
    have hexec : execPass env ["-f", "foo", "bar", "gce"] ExecState.initial =
        .halted ⟨[.stderr "error: invalid CSP\n"], .exit1⟩ := by
      rw [show ["-f", "foo", "bar", "gce"] = ["-f", "foo"] ++ ["bar", "gce"] from rfl,
        execPass_append env ["-f", "foo"] _ _ hpre ["bar", "gce"],
        execPass_csp env "bar" _ _ (by decide) (by decide),
        queryCSP_of_not_isCSP env "bar" _ (by decide)]
      rfl
    simp only [main, hscan, hexec]
    rfl
  refine ⟨hscan, hpre, hmain, ?_⟩
  intro url
  rw [hmain]
  simp

/-! ## C7 -/

/-- C7 as stated fails: for `gce -f foo` the validation loop ends with `-f`
pending, and no request for the Google feed is made. -/
theorem gce_dash_f_foo_is_dangling :
    danglingScan ["gce", "-f", "foo"] "" ≠ "" ∧
    Event.httpGet (imagesURL "google") ∉
      (main (Env.example [mkImage "sles" "" "" ""]) ["gce", "-f", "foo"]).trace := by
  decide

/-- C7, amended: for `gce -f foo` the validation pass fails: `-f` is left
pending, the process writes to standard error the text
`dangling argument: -f` and the line `Program arguments need to be BEFORE the
CSP.`, and exits with status 1 before the execution pass, so no query runs
and the filter is never set. -/
theorem gce_dash_f_foo_dangling_error (env : Env) :
    danglingScan ["gce", "-f", "foo"] "" = "-f" ∧
    main env ["gce", "-f", "foo"] =
      ⟨[.stderr "dangling argument: -f\nProgram arguments need to be BEFORE the CSP.\n"],
        .exit1⟩ ∧
    ∀ url, Event.httpGet url ∉ (main env ["gce", "-f", "foo"]).trace := by
  have hscan : danglingScan ["gce", "-f", "foo"] "" = "-f" := by decide
  have hmain : main env ["gce", "-f", "foo"] =
      ⟨[.stderr "dangling argument: -f\nProgram arguments need to be BEFORE the CSP.\n"],
        .exit1⟩ := by
    simp only [main, hscan]
    rfl
  refine ⟨hscan, hmain, ?_⟩
  intro url
  rw [hmain]
  simp

/-! ## C8 -/

theorem isCSP_shape (tok : String) (h : isCSP tok = true) :
    tok ≠ "" ∧ ¬ tok.data.head? = some '-' := by
  simp only [isCSP, isGCE, isAzure, isAWS, Bool.or_eq_true, decide_eq_true_eq] at h
  rcases h with ((((e | e) | e) | e) | (((e | e) | e) | e)) | (((e | e) | e) | e) <;>
    subst e <;> decide

theorem main_of_valid (env : Env) (args : List String) (hne : args ≠ [])
    (hvalid : danglingScan args "" = "") :
    main env args = (execPass env args ExecState.initial).finish := by
  have hlen : ¬ args.length < 1 := by
    cases args with
    | nil => exact absurd rfl hne
    | cons a l => simp
  simp [main, hlen, hvalid]

/-- C8: in an argument list that passes validation, when the execution pass
has run through the arguments `pre` before a provider token without ending
the process, the configuration at the token has as filter the value that
followed the last `-f`/`--filter` processed in `pre` (empty if none) and as
region the value that followed the last `-r`/`--region` processed in `pre`
(empty if none), whatever provider tokens `pre` contains; the run is the
query of that provider with this configuration, followed by the rest of the
arguments. -/
theorem provider_query_uses_last_flag_values (env : Env) (pre post : List String)
    (tok : String) (st : ExecState)
    (hvalid : danglingScan (pre ++ tok :: post) "" = "")
    (hreach : execPass env pre ExecState.initial = .done st)
    (htok : isCSP tok = true) :
    st.config.Filter = lastValueOf isFilterFlag "" pre ∧
    st.config.Region = lastValueOf isRegionFlag "" pre ∧
    main env (pre ++ tok :: post) =
      ((queryCSP env tok
          ⟨⟨lastValueOf isRegionFlag "" pre, lastValueOf isFilterFlag "" pre⟩,
            st.calls, st.trace⟩).andThen (execPass env post)).finish := by
  have hcfg := execPass_done_config env pre _ _ hreach
  have hshape := isCSP_shape tok htok
  have hst : (⟨⟨lastValueOf isRegionFlag "" pre, lastValueOf isFilterFlag "" pre⟩,
      st.calls, st.trace⟩ : ExecState) = st := by
    cases st with
    | mk config calls trace =>
      cases config with
      | mk region filter =>
        simp only [ExecState.initial] at hcfg
        simp only [ExecState.mk.injEq, Config.mk.injEq, and_true]
        exact ⟨hcfg.2.symm, hcfg.1.symm⟩
  refine ⟨hcfg.1, hcfg.2, ?_⟩
  rw [main_of_valid env _ (by simp) hvalid, execPass_append env pre _ _ hreach,
    execPass_csp env tok post st hshape.1 hshape.2, hst]

/-- C8 at `-f a -r eu gce -f b aws` with a feed of one image `sles-ab` in
region `eu`: the Google query has run with filter `a`; at `aws` the filter is
`b` and the region `eu`. -/
theorem provider_query_uses_last_flag_values_witness :
    danglingScan (["-f", "a", "-r", "eu", "gce", "-f", "b"] ++ "aws" :: []) "" = "" ∧
    execPass (Env.example [mkImage "sles-ab" "eu" "" ""])
        ["-f", "a", "-r", "eu", "gce", "-f", "b"] ExecState.initial =
      .done ⟨⟨"eu", "b"⟩, 1, [.httpGet (imagesURL "google"),
        .table ["Name", "Project", "State"] [mkImage "sles-ab" "eu" "" ""]]⟩ ∧
    isCSP "aws" = true ∧
    lastValueOf isFilterFlag "" ["-f", "a", "-r", "eu", "gce", "-f", "b"] = "b" ∧
    lastValueOf isRegionFlag "" ["-f", "a", "-r", "eu", "gce", "-f", "b"] = "eu" ∧
    main (Env.example [mkImage "sles-ab" "eu" "" ""])
        (["-f", "a", "-r", "eu", "gce", "-f", "b"] ++ "aws" :: []) =
      ((queryCSP (Env.example [mkImage "sles-ab" "eu" "" ""]) "aws"
          ⟨⟨lastValueOf isRegionFlag "" ["-f", "a", "-r", "eu", "gce", "-f", "b"],
            lastValueOf isFilterFlag "" ["-f", "a", "-r", "eu", "gce", "-f", "b"]⟩,
            1, [.httpGet (imagesURL "google"),
              .table ["Name", "Project", "State"] [mkImage "sles-ab" "eu" "" ""]]⟩).andThen
        (execPass (Env.example [mkImage "sles-ab" "eu" "" ""]) [])).finish :=
  ⟨by decide, by decide, by decide, by decide, by decide,
    (provider_query_uses_last_flag_values (Env.example [mkImage "sles-ab" "eu" "" ""])
      ["-f", "a", "-r", "eu", "gce", "-f", "b"] [] "aws"
      ⟨⟨"eu", "b"⟩, 1, [.httpGet (imagesURL "google"),
        .table ["Name", "Project", "State"] [mkImage "sles-ab" "eu" "" ""]]⟩
      (by decide) (by decide) (by decide)).2.2⟩

/-! ## C9 -/

/-- C9 fails on the Amazon branch: with the region `eu-west-1` set and a feed
whose only image is in `us-east-1`, the list is empty after the region
filter, yet no diagnostic is written, a table without rows is rendered and
`main` returns with status 0.  The same feed on the Google branch with a
filter that removes the image ends with the diagnostic and status 1. -/
theorem aws_region_filter_empty_list_not_fatal :
    main (Env.example [mkImage "sles-15" "us-east-1" "" ""]) ["-r", "eu-west-1", "aws"] =
      ⟨[.httpGet (imagesURL "amazon"), .table ["ID", "Name", "State"] []], .returned⟩ ∧
    main (Env.example [mkImage "sles-15" "us-east-1" "" ""]) ["-f", "rhel", "gce"] =
      ⟨[.httpGet (imagesURL "google"),
        .stderr "no images found (too restrictive filter?)\n"], .exit1⟩ := by
  decide

/-! ## C10 -/

/-- Running through arguments among which the scan encounters no provider
token and no `--list-aws-regions` makes no request. -/
theorem execPass_done_no_request (env : Env) (pre : List String) (st0 st : ExecState)
    (h : execPass env pre st0 = .done st)
    (hquiet : ∀ a ∈ encountered pre, isCSP a = false ∧ a ≠ "--list-aws-regions")
    (url : String) (hmem : Event.httpGet url ∈ st.trace) : Event.httpGet url ∈ st0.trace := by
  refine execPass_done_induction env
    (fun pre st0 st =>
      (∀ a ∈ encountered pre, isCSP a = false ∧ a ≠ "--list-aws-regions") →
      Event.httpGet url ∈ st.trace → Event.httpGet url ∈ st0.trace)
    ?_ ?_ ?_ ?_ ?_ ?_ ?_ pre.length pre (Nat.le_refl _) st0 st h hquiet hmem
  · intro st _ hm
    exact hm
  · intro pre st0 st ih hq hm
    rw [encountered_cons_of_not_flag _ _ (by decide)] at hq
    exact ih (fun a ha => hq a (List.mem_cons_of_mem _ ha)) hm
  · intro arg value pre st0 st e ih hq hm
    have hflag : isValueFlag arg = true := by rcases e with e | e <;> subst e <;> decide
    rw [encountered_flag_value _ _ _ hflag] at hq
    exact ih (fun a ha => hq a (List.mem_cons_of_mem _ ha)) hm
  · intro arg value pre st0 st e ih hq hm
    have hflag : isValueFlag arg = true := by rcases e with e | e <;> subst e <;> decide
    rw [encountered_flag_value _ _ _ hflag] at hq
    exact ih (fun a ha => hq a (List.mem_cons_of_mem _ ha)) hm
  · intro pre st0 st ih hq hm
    rw [encountered_cons_of_not_flag _ _ (by decide)] at hq
    have := ih (fun a ha => hq a (List.mem_cons_of_mem _ ha)) hm
    simpa [listAzEnvs] using this
  · intro pre st0 st1 st _ _ hq _
    rw [encountered_cons_of_not_flag _ _ (by decide)] at hq
    exact absurd rfl (hq "--list-aws-regions" (List.mem_cons_self _ _)).2
  · intro arg pre st0 st1 st _ _ hquery _ hq _
    have hcsp := (queryCSP_done env arg st0 st1 hquery).1
    have hflag : ¬ isValueFlag arg = true := by
      intro hf
      have := isCSP_of_isValueFlag arg hf
      rw [hcsp] at this
      cases this
    rw [encountered_cons_of_not_flag _ _ hflag] at hq
    have := (hq arg (List.mem_cons_self _ _)).1
    rw [hcsp] at this
    cases this

theorem execPass_unrecognized (env : Env) (tok : String) (post : List String) (st : ExecState)
    (htok : isUnrecognized tok = true) :
    ∃ text, execPass env (tok :: post) st = .halted ⟨st.trace ++ [.stderr text], .exit1⟩ := by
  simp only [isUnrecognized, Bool.and_eq_true, decide_eq_true_eq] at htok
  obtain ⟨hne, hkind⟩ := htok
  by_cases hdash : tok.data.head? = some '-'
  · rw [if_pos hdash] at hkind
    have hrec : isRecognizedFlag tok = false := by simpa using hkind
    exact ⟨_, execPass_unrecognized_flag env tok post st hne hdash hrec⟩
  · rw [if_neg hdash] at hkind
    have hcsp : isCSP tok = false := by simpa using hkind
    refine ⟨"error: invalid CSP\n", ?_⟩
    rw [execPass_csp env tok post st hne hdash, queryCSP_of_not_isCSP env tok st hcsp]
    rfl

/-- C10 as stated fails: in `gce --bogus` the token `--bogus` is unrecognized,
yet the request for the Google feed is made before the process exits; in
`-h --bogus`, `--help --bogus` and `--version --bogus` the process ends with
status 0;
and an empty argument, which starts with no dash and is no provider alias, is
skipped and the process ends with status 0. -/
theorem unrecognized_token_after_query_or_help :
    isUnrecognized "--bogus" = true ∧
    Event.httpGet (imagesURL "google") ∈
      (main (Env.example [mkImage "sles" "" "" ""]) ["gce", "--bogus"]).trace ∧
    (main (Env.example [mkImage "sles" "" "" ""]) ["-h", "--bogus"]).exit = .returned ∧
    (main (Env.example [mkImage "sles" "" "" ""]) ["--help", "--bogus"]).exit = .returned ∧
    (main (Env.example [mkImage "sles" "" "" ""]) ["--version", "--bogus"]).exit = .returned ∧
    isCSP "" = false ∧
    (main (Env.example [mkImage "sles" "" "" ""]) [""]).exit = .returned := by
  decide

/-! ## C11 -/

/-- C11: `isGCE` holds exactly for `g`, `gce`, `gcp`, `google`, `isAWS` exactly
for `a`, `aws`, `ec2`, `amazon`, `isAzure` exactly for `m`, `az`, `azure`,
`microsoft` (as written, so case-sensitively); no string satisfies two of
them; and the dispatch on a provider token runs the query of the one
provider whose predicate holds. -/
theorem provider_aliases_partition (env : Env) (csp : String) (st : ExecState) :
    (isGCE csp = true ↔ csp = "g" ∨ csp = "gce" ∨ csp = "gcp" ∨ csp = "google") ∧
    (isAWS csp = true ↔ csp = "a" ∨ csp = "aws" ∨ csp = "ec2" ∨ csp = "amazon") ∧
    (isAzure csp = true ↔ csp = "m" ∨ csp = "az" ∨ csp = "azure" ∨ csp = "microsoft") ∧
    ¬ (isGCE csp = true ∧ isAWS csp = true) ∧
    ¬ (isGCE csp = true ∧ isAzure csp = true) ∧
    ¬ (isAWS csp = true ∧ isAzure csp = true) ∧
    (isGCE csp = true → queryCSP env csp st = queryGCE env st) ∧
    (isAWS csp = true → queryCSP env csp st = queryAWS env st) ∧
    (isAzure csp = true → queryCSP env csp st = queryAzure env st) := by
  have hg : isGCE csp = true ↔ csp = "g" ∨ csp = "gce" ∨ csp = "gcp" ∨ csp = "google" := by
    simp [isGCE, or_assoc]
  have ha : isAWS csp = true ↔ csp = "a" ∨ csp = "aws" ∨ csp = "ec2" ∨ csp = "amazon" := by
    simp [isAWS, or_assoc]
  have hm : isAzure csp = true ↔
      csp = "m" ∨ csp = "az" ∨ csp = "azure" ∨ csp = "microsoft" := by
    simp [isAzure, or_assoc]
  have hga : ¬ (isGCE csp = true ∧ isAWS csp = true) := by
    rintro ⟨h1, h2⟩
    rcases hg.1 h1 with e | e | e | e <;> subst e <;> exact absurd h2 (by decide)
  have hgm : ¬ (isGCE csp = true ∧ isAzure csp = true) := by
    rintro ⟨h1, h2⟩
    rcases hg.1 h1 with e | e | e | e <;> subst e <;> exact absurd h2 (by decide)
  have ham : ¬ (isAWS csp = true ∧ isAzure csp = true) := by
    rintro ⟨h1, h2⟩
    rcases ha.1 h1 with e | e | e | e <;> subst e <;> exact absurd h2 (by decide)
  refine ⟨hg, ha, hm, hga, hgm, ham, ?_, ?_, ?_⟩
  · intro h
    simp [queryCSP, h]
  · intro h
    have hng : isGCE csp = false := by
      cases hc : isGCE csp
      · rfl
      · exact absurd ⟨hc, h⟩ hga
    simp [queryCSP, h, hng]
  · intro h
    have hng : isGCE csp = false := by
      cases hc : isGCE csp
      · rfl
      · exact absurd ⟨hc, h⟩ hgm
    have hna : isAWS csp = false := by
      cases hc : isAWS csp
      · rfl
      · exact absurd ⟨hc, h⟩ ham
    simp [queryCSP, h, hng, hna]

/-- C11 at `ec2` (and at `EC2`, which is no alias): the Amazon query runs. -/
theorem provider_aliases_partition_witness :
    isAWS "ec2" = true ∧ isAWS "EC2" = false ∧ isCSP "EC2" = false ∧
    queryCSP (Env.example [mkImage "sles" "" "" ""]) "ec2" ExecState.initial =
      queryAWS (Env.example [mkImage "sles" "" "" ""]) ExecState.initial :=
  ⟨by decide, by decide, by decide,
    (provider_aliases_partition (Env.example [mkImage "sles" "" "" ""]) "ec2"
      ExecState.initial).2.2.2.2.2.2.2.1 (by decide)⟩

/-! ## C13 -/

/-- C13: `Images.filterSUSE` leaves exactly the images whose `Name` starts with
`suse-`, in their original order: its result is the list of those images,
and an image is in the result exactly when it is in the list and its name has
that prefix. -/
theorem filterSUSE_exact (i : Images) :
    i.filterSUSE.Images =
      i.Images.filter (fun val => decide ("suse-".data <+: val.Name.data)) ∧
    ∀ val, val ∈ i.filterSUSE.Images ↔ val ∈ i.Images ∧ "suse-".data <+: val.Name.data := by
  have hpred : (fun val : Image => hasPrefix val.Name "suse-") =
      fun val => decide ("suse-".data <+: val.Name.data) := by
    funext val
    rw [Bool.eq_iff_iff]
    simp [hasPrefix, List.isPrefixOf_iff_prefix]
  have h : i.filterSUSE.Images =
      i.Images.filter (fun val => decide ("suse-".data <+: val.Name.data)) := by
    rw [← hpred]
    exact (compactLoop_whole (fun val => hasPrefix val.Name "suse-") i.Images).1
  refine ⟨h, ?_⟩
  intro val
  rw [h]
  simp [List.mem_filter]

/-! ## C14 -/

/-- C14 fails on the code: the flag dispatch has no branch for `--az-env`, so
for `--az-env PublicAzure azure` validation passes and the execution pass
ends at the first argument with the invalid-parameter error and status 1,
before any request. -/
theorem az_env_is_rejected (env : Env) :
    isRecognizedFlag "--az-env" = false ∧
    danglingScan ["--az-env", "PublicAzure", "azure"] "" = "" ∧
    main env ["--az-env", "PublicAzure", "azure"] =
      ⟨[.stderr "invalid parameter: --az-env\n"], .exit1⟩ := by
  have hscan : danglingScan ["--az-env", "PublicAzure", "azure"] "" = "" := by decide
  refine ⟨by decide, hscan, ?_⟩
  rw [main_of_valid env _ (by simp) hscan,
    execPass_unrecognized_flag env "--az-env" _ _ (by decide) (by decide) (by decide)]
  rfl

/-! ## C15 -/

theorem images_filter_count_add (lower : Char → Char) (i : Images) (filter : String) :
    (i.filter lower filter).2 + (i.filter lower filter).1.Images.length = i.Images.length := by
  have h := compactLoop_whole (fun val => val.filter lower filter) i.Images
  have h2 := h.2
  simp only [Images.filter]
  rw [h.1]
  exact h2

theorem images_filter_eq_keepIf (lower : Char → Char) (i : Images) (filter : String) :
    (i.filter lower filter).1.Images = keepIf (fun val => val.filter lower filter) i.Images :=
  (compactLoop_whole (fun val => val.filter lower filter) i.Images).1

theorem images_filter_empty_count (lower : Char → Char) (i : Images) (filter : String)
    (hempty : (i.filter lower filter).1.Images = []) :
    (i.filter lower filter).2 = i.Images.length := by
  have h := (images_filter_count_add lower i filter)
  rw [hempty] at h
  simpa using h

theorem emptyDiagnostic_eq (lower : Char → Char) (i : Images) (filter : String)
    (hempty : (i.filter lower filter).1.Images = []) :
    emptyDiagnostic (i.filter lower filter).2 =
      .stderr (if i.Images = [] then "no images found\n"
        else "no images found (too restrictive filter?)\n") := by
  rw [images_filter_empty_count lower i filter hempty, emptyDiagnostic]
  by_cases h : i.Images = []
  · simp [h]
  · have hlen : i.Images.length ≠ 0 := fun e => h (List.length_eq_zero.1 e)
    simp [h, hlen]

/-- C15: in each provider branch, when the list is empty after the user token
filter, the count the filter returned is the length of the list before it,
and the diagnostic is the plain `no images found` exactly when the list was
empty before the filter ran and the `too restrictive filter` one exactly when
the filter removed an image; the process then exits with status 1.  In the
Microsoft branch the list before the user token filter is the one
`filterSUSE` left. -/
theorem empty_diagnostic_tells_filter_from_feed (env : Env) (st : ExecState) (images : Images) :
    (FetchImages env st.calls "google" = .ok images →
      (images.filter env.lower st.config.Filter).1.Images = [] →
      (images.filter env.lower st.config.Filter).2 = images.Images.length ∧
      queryGCE env st = .halted ⟨st.trace ++ [.httpGet (imagesURL "google"),
        .stderr (if images.Images = [] then "no images found\n"
          else "no images found (too restrictive filter?)\n")], .exit1⟩) ∧
    (FetchImages env st.calls "amazon" = .ok images →
      (images.filter env.lower st.config.Filter).1.Images = [] →
      (images.filter env.lower st.config.Filter).2 = images.Images.length ∧
      queryAWS env st = .halted ⟨st.trace ++ [.httpGet (imagesURL "amazon"),
        .stderr (if images.Images = [] then "no images found\n"
          else "no images found (too restrictive filter?)\n")], .exit1⟩) ∧
    (FetchImages env st.calls "microsoft" = .ok images →
      (images.filterSUSE.filter env.lower st.config.Filter).1.Images = [] →
      (images.filterSUSE.filter env.lower st.config.Filter).2 =
        images.filterSUSE.Images.length ∧
      queryAzure env st = .halted ⟨st.trace ++ [.httpGet (imagesURL "microsoft"),
        .stderr (if images.filterSUSE.Images = [] then "no images found\n"
          else "no images found (too restrictive filter?)\n")], .exit1⟩) := by
  refine ⟨?_, ?_, ?_⟩
  · intro hfetch hempty
    refine ⟨images_filter_empty_count _ _ _ hempty, ?_⟩
    simp only [queryGCE, ExecState.halt, ExecState.emit, hfetch, hempty, List.length_nil,
      if_true, emptyDiagnostic_eq _ _ _ hempty]
    simp
  · intro hfetch hempty
    refine ⟨images_filter_empty_count _ _ _ hempty, ?_⟩
    simp only [queryAWS, ExecState.halt, ExecState.emit, hfetch, hempty, List.length_nil,
      if_true, emptyDiagnostic_eq _ _ _ hempty]
    simp
  · intro hfetch hempty
    refine ⟨images_filter_empty_count _ _ _ hempty, ?_⟩
    simp only [queryAzure, ExecState.halt, ExecState.emit, hfetch, hempty, List.length_nil,
      if_true, emptyDiagnostic_eq _ _ _ hempty]
    simp

/-- C15 on the Google branch with the filter `rhel` and a feed of one image
`sles-15`: the filter removes the one image, and the diagnostic is the
`too restrictive filter` one. -/
theorem empty_diagnostic_tells_filter_from_feed_witness :
    FetchImages (Env.example [mkImage "sles-15" "" "" ""])
        (ExecState.mk ⟨"", "rhel"⟩ 0 []).calls "google" =
      .ok ⟨[mkImage "sles-15" "" "" ""]⟩ ∧
    ((⟨[mkImage "sles-15" "" "" ""]⟩ : Images).filter
      (Env.example [mkImage "sles-15" "" "" ""]).lower
      (ExecState.mk ⟨"", "rhel"⟩ 0 []).config.Filter).1.Images = [] ∧
    ((⟨[mkImage "sles-15" "" "" ""]⟩ : Images).filter
      (Env.example [mkImage "sles-15" "" "" ""]).lower
      (ExecState.mk ⟨"", "rhel"⟩ 0 []).config.Filter).2 = 1 ∧
    queryGCE (Env.example [mkImage "sles-15" "" "" ""]) (ExecState.mk ⟨"", "rhel"⟩ 0 []) =
      .halted ⟨[.httpGet (imagesURL "google"),
        .stderr "no images found (too restrictive filter?)\n"], .exit1⟩ :=
  ⟨congrArg Except.ok (by decide), by decide,
    ((empty_diagnostic_tells_filter_from_feed (Env.example [mkImage "sles-15" "" "" ""])
      (ExecState.mk ⟨"", "rhel"⟩ 0 []) ⟨[mkImage "sles-15" "" "" ""]⟩).1
      (congrArg Except.ok (by decide)) (by decide)).1,
    ((empty_diagnostic_tells_filter_from_feed (Env.example [mkImage "sles-15" "" "" ""])
      (ExecState.mk ⟨"", "rhel"⟩ 0 []) ⟨[mkImage "sles-15" "" "" ""]⟩).1
      (congrArg Except.ok (by decide)) (by decide)).2⟩

/-! ## C16 -/

/-- Induction over the iterations of the execution loop: one case for each
branch of the loop body, with the induction hypothesis for the arguments the
next iteration starts at. -/
theorem execPass_branch_induction (env : Env) (P : List String → ExecState → Prop)
    (hnil : ∀ st, P [] st)
    (hempty : ∀ rest st, P rest st → P ("" :: rest) st)
    (hhelp : ∀ arg rest st, (arg = "-h" ∨ arg = "--help") → P (arg :: rest) st)
    (hversion : ∀ rest st, P ("--version" :: rest) st)
    (hlast : ∀ arg st, isValueFlag arg = true → P [arg] st)
    (hfilter : ∀ arg value rest st, (arg = "-f" ∨ arg = "--filter") →
      P rest { st with config := { st.config with Filter := value } } →
      P (arg :: value :: rest) st)
    (hregion : ∀ arg value rest st, (arg = "-r" ∨ arg = "--region") →
      P rest { st with config := { st.config with Region := value } } →
      P (arg :: value :: rest) st)
    (hlistAz : ∀ rest st, P rest (listAzEnvs st) → P ("--list-az-envs" :: rest) st)
    (hlistAws : ∀ rest st, (∀ st1, listAWSRegions env st = .done st1 → P rest st1) →
      P ("--list-aws-regions" :: rest) st)
    (hbad : ∀ arg rest st, arg ≠ "" → arg.data.head? = some '-' →
      isRecognizedFlag arg = false → P (arg :: rest) st)
    (hcsp : ∀ arg rest st, arg ≠ "" → ¬ arg.data.head? = some '-' →
      (∀ st1, queryCSP env arg st = .done st1 → P rest st1) → P (arg :: rest) st) :
    ∀ (n : Nat) (args : List String), args.length ≤ n → ∀ st, P args st := by
  intro n
  induction n with
  | zero =>
    intro args hlen st
    have : args = [] := List.length_eq_zero.1 (Nat.le_zero.1 hlen)
    subst this
    exact hnil st
  | succ n ih =>
    intro args hlen st
    cases args with
    | nil => exact hnil st
    | cons arg rest =>
      have hrest : rest.length ≤ n := by simpa using hlen
      by_cases hne : arg = ""
      · subst hne
        exact hempty _ _ (ih rest hrest st)
      by_cases hdash : arg.data.head? = some '-'
      · by_cases hrec : isRecognizedFlag arg = true
        · rcases (isRecognizedFlag_iff arg).1 hrec with e | e | e | e | e | e
          · exact hhelp _ _ _ e
          · subst e
            exact hversion _ _
          · cases rest with
            | nil => exact hlast _ _ (by rcases e with e | e <;> subst e <;> decide)
            | cons value rest =>
              have hrest2 : rest.length ≤ n := by
                simp only [List.length_cons] at hrest
                omega
              exact hfilter _ _ _ _ e (ih rest hrest2 _)
          · cases rest with
            | nil => exact hlast _ _ (by rcases e with e | e <;> subst e <;> decide)
            | cons value rest =>
              have hrest2 : rest.length ≤ n := by
                simp only [List.length_cons] at hrest
                omega
              exact hregion _ _ _ _ e (ih rest hrest2 _)
          · subst e
            exact hlistAz _ _ (ih rest hrest _)
          · subst e
            exact hlistAws _ _ (fun st1 _ => ih rest hrest st1)
        · exact hbad _ _ _ hne hdash (by simpa using hrec)
      · exact hcsp _ _ _ hne hdash (fun st1 _ => ih rest hrest st1)

theorem execPass_flag_last (env : Env) (arg : String) (st : ExecState)
    (h : isValueFlag arg = true) :
    execPass env [arg] st = .halted ⟨st.trace, .indexOutOfRange⟩ := by
  rcases (isValueFlag_iff arg).1 h with e | e | e | e
  · exact execPass_filter_last env arg st (Or.inl e)
  · exact execPass_filter_last env arg st (Or.inr e)
  · exact execPass_region_last env arg st (Or.inl e)
  · exact execPass_region_last env arg st (Or.inr e)

theorem queryCSP_halted_exit (env : Env) (arg : String) (st : ExecState) (o : Outcome)
    (h : queryCSP env arg st = .halted o) : o.exit = .exit1 := by
  simp only [queryCSP, queryGCE, queryAWS, queryAzure, ExecState.halt, ExecState.emit] at h
  split_ifs at h <;> (try split at h) <;> (try split_ifs at h) <;> cases h <;> rfl

theorem listAWSRegions_halted_exit (env : Env) (st : ExecState) (o : Outcome)
    (h : listAWSRegions env st = .halted o) : o.exit = .exit1 := by
  simp only [listAWSRegions, ExecState.halt, ExecState.emit] at h
  split at h <;> cases h
  rfl

/-- An execution pass that ends with an index out of range has run into a
value-consuming flag as the last argument, which the validation loop leaves
pending. -/
theorem execPass_panic_pending (env : Env) (args : List String) (st : ExecState)
    (tr : List Event) (h : execPass env args st = .halted ⟨tr, .indexOutOfRange⟩)
    (dangling : String) : (encountered args).foldl pendingStep dangling ≠ "" := by
  refine execPass_branch_induction env
    (fun args st => ∀ tr, execPass env args st = .halted ⟨tr, .indexOutOfRange⟩ →
      ∀ dangling, (encountered args).foldl pendingStep dangling ≠ "")
    ?_ ?_ ?_ ?_ ?_ ?_ ?_ ?_ ?_ ?_ ?_ args.length args (Nat.le_refl _) st tr h dangling
  · intro st tr h
    rw [execPass_nil] at h
    cases h
  · intro rest st ih tr h d
    rw [execPass_empty] at h
    rw [encountered_cons_of_not_flag _ _ (by decide), List.foldl_cons]
    exact ih tr h _
  · intro arg rest st e tr h
    rw [execPass_help env arg rest st e] at h
    cases h
  · intro rest st tr h
    rw [execPass_version] at h
    cases h
  · intro arg st hflag tr _ d
    rw [encountered_flag_last arg hflag, List.foldl_cons, List.foldl_nil]
    simp only [pendingStep, hflag, if_true]
    exact ne_empty_of_isValueFlag arg hflag
  · intro arg value rest st e ih tr h d
    have hflag : isValueFlag arg = true := by rcases e with e | e <;> subst e <;> decide
    rw [execPass_filter env arg value rest st e] at h
    rw [encountered_flag_value arg value rest hflag, List.foldl_cons]
    exact ih tr h _
  · intro arg value rest st e ih tr h d
    have hflag : isValueFlag arg = true := by rcases e with e | e <;> subst e <;> decide
    rw [execPass_region env arg value rest st e] at h
    rw [encountered_flag_value arg value rest hflag, List.foldl_cons]
    exact ih tr h _
  · intro rest st ih tr h d
    rw [execPass_listAzEnvs] at h
    rw [encountered_cons_of_not_flag _ _ (by decide), List.foldl_cons]
    exact ih tr h _
  · intro rest st ih tr h d
    rw [execPass_listAWSRegions] at h
    rw [encountered_cons_of_not_flag _ _ (by decide), List.foldl_cons]
    cases hl : listAWSRegions env st with
    | halted o =>
      rw [hl] at h
      have hexit := listAWSRegions_halted_exit env st o hl
      simp only [Run.andThen, Run.halted.injEq] at h
      rw [h] at hexit
      cases hexit
    | done st1 =>
      rw [hl] at h
      exact ih st1 hl tr h _
  · intro arg rest st hne hdash hrec tr h
    rw [execPass_unrecognized_flag env arg rest st hne hdash hrec] at h
    simp only [ExecState.halt, Run.halted.injEq, Outcome.mk.injEq] at h
    exact absurd h.2 (by decide)
  · intro arg rest st hne hdash ih tr h d
    rw [execPass_csp env arg rest st hne hdash] at h
    have hflag : ¬ isValueFlag arg = true := by
      intro hf
      rcases (isValueFlag_iff arg).1 hf with e | e | e | e <;> subst e <;>
        exact absurd (by decide) hdash
    rw [encountered_cons_of_not_flag _ _ hflag, List.foldl_cons]
    cases hq : queryCSP env arg st with
    | halted o =>
      rw [hq] at h
      have hexit := queryCSP_halted_exit env arg st o hq
      simp only [Run.andThen, Run.halted.injEq] at h
      rw [h] at hexit
      cases hexit
    | done st1 =>
      rw [hq] at h
      exact ih st1 hq tr h _

/-- When the last argument is a value-consuming flag, the last argument the
scan encounters is one too: that flag, or the flag that consumes it. -/
theorem encountered_ends_with_flag :
    ∀ (n : Nat) (args : List String), args.length ≤ n → ∀ flag : String,
      args.getLast? = some flag → isValueFlag flag = true →
      ∃ l g, encountered args = l ++ [g] ∧ isValueFlag g = true := by
  intro n
  induction n with
  | zero =>
    intro args hlen flag hlast _
    have : args = [] := List.length_eq_zero.1 (Nat.le_zero.1 hlen)
    subst this
    simp at hlast
  | succ n ih =>
    intro args hlen flag hlast hflag
    cases args with
    | nil => simp at hlast
    | cons a rest =>
      have hrest : rest.length ≤ n := by simpa using hlen
      by_cases ha : isValueFlag a = true
      · cases rest with
        | nil => exact ⟨[], a, by rw [encountered_flag_last a ha]; rfl, ha⟩
        | cons b rest =>
          cases rest with
          | nil =>
            refine ⟨[], a, ?_, ha⟩
            rw [encountered_flag_value a b [] ha]
            rfl
          | cons c rest =>
            have hlast2 : (c :: rest).getLast? = some flag := by
              rw [List.getLast?_cons_cons, List.getLast?_cons_cons] at hlast
              exact hlast
            have hlen2 : (c :: rest).length ≤ n := by
              simp only [List.length_cons] at hrest ⊢
              omega
            obtain ⟨l, g, hl, hg⟩ := ih (c :: rest) hlen2 flag hlast2 hflag
            exact ⟨a :: l, g, by rw [encountered_flag_value a b _ ha, hl]; rfl, hg⟩
      · cases rest with
        | nil =>
          have : a = flag := by simpa using hlast
          rw [this] at ha
          exact absurd hflag ha
        | cons b rest =>
          have hlast2 : (b :: rest).getLast? = some flag := by
            rw [List.getLast?_cons_cons] at hlast
            exact hlast
          obtain ⟨l, g, hl, hg⟩ := ih (b :: rest) hrest flag hlast2 hflag
          exact ⟨a :: l, g, by rw [encountered_cons_of_not_flag a _ ha, hl]; rfl, hg⟩

/-- C16: for an argument list that passes validation, the execution pass (from
any state) never ends with an index out of range, so every value-consuming
flag it processes has a following argument, and neither does `main`; an
argument list whose last argument is a value-consuming flag is always
rejected by validation, with the dangling-argument error and status 1; and
an empty argument is skipped before its first character is looked at. -/
theorem validated_args_never_index_out_of_range (env : Env) (args : List String) :
    (danglingScan args "" = "" →
      (∀ st tr, execPass env args st ≠ .halted ⟨tr, .indexOutOfRange⟩) ∧
      (main env args).exit ≠ .indexOutOfRange) ∧
    (∀ flag, args.getLast? = some flag → isValueFlag flag = true →
      danglingScan args "" ≠ "" ∧
      main env args = ⟨[.stderr (danglingMessage (danglingScan args ""))], .exit1⟩) ∧
    (∀ rest st, execPass env ("" :: rest) st = execPass env rest st) := by
  have hscan := danglingScan_eq_foldl args.length args (Nat.le_refl _) ""
  refine ⟨?_, ?_, fun rest st => execPass_empty env rest st⟩
  · intro hvalid
    have hexec : ∀ st tr, execPass env args st ≠ .halted ⟨tr, .indexOutOfRange⟩ := by
      intro st tr h
      have := execPass_panic_pending env args st tr h ""
      rw [← hscan] at this
      exact this hvalid
    refine ⟨hexec, ?_⟩
    by_cases hlen : args.length < 1
    · simp only [main, if_pos hlen]
      decide
    · have hmain : main env args = (execPass env args ExecState.initial).finish := by
        simp [main, hlen, hvalid]
      rw [hmain]
      cases hr : execPass env args ExecState.initial with
      | done st1 =>
        simp only [Run.finish]
        decide
      | halted o =>
        simp only [Run.finish]
        intro hexit
        cases o with
        | mk tr x =>
          simp only at hexit
          subst hexit
          exact hexec _ _ hr
  · intro flag hlast hflag
    obtain ⟨l, g, hl, hg⟩ := encountered_ends_with_flag args.length args (Nat.le_refl _) flag
      hlast hflag
    have hne : danglingScan args "" ≠ "" := by
      rw [hscan, hl, List.foldl_append, List.foldl_cons, List.foldl_nil]
      simp only [pendingStep, hg, if_true]
      exact ne_empty_of_isValueFlag g hg
    have hlen : ¬ args.length < 1 := by
      cases args with
      | nil => simp at hlast
      | cons a rest => simp
    refine ⟨hne, ?_⟩
    simp only [main, if_neg hlen, if_pos hne]

/-- C16 at `-f sles gce` (passes validation, the execution pass from the
initial state is not an index out of range) and at `gce -r` (ends in a
value-consuming flag, rejected by validation). -/
theorem validated_args_never_index_out_of_range_witness :
    danglingScan ["-f", "sles", "gce"] "" = "" ∧
    (main (Env.example [mkImage "sles" "" "" ""]) ["-f", "sles", "gce"]).exit ≠
      .indexOutOfRange ∧
    ["gce", "-r"].getLast? = some "-r" ∧ isValueFlag "-r" = true ∧
    main (Env.example [mkImage "sles" "" "" ""]) ["gce", "-r"] =
      ⟨[.stderr (danglingMessage (danglingScan ["gce", "-r"] ""))], .exit1⟩ :=
  ⟨by decide,
    ((validated_args_never_index_out_of_range (Env.example [mkImage "sles" "" "" ""])
      ["-f", "sles", "gce"]).1 (by decide)).2,
    by decide, by decide,
    ((validated_args_never_index_out_of_range (Env.example [mkImage "sles" "" "" ""])
      ["gce", "-r"]).2.1 "-r" (by decide) (by decide)).2⟩

/-! ## The filter passes: lemmas -/

theorem images_eq_of_list (a b : Images) (h : a.Images = b.Images) : a = b := by
  cases a
  cases b
  simp only at h
  rw [h]

theorem filter_filter_and (p q : Image → Bool) (l : List Image) :
    (l.filter q).filter p = l.filter fun a => q a && p a := by
  rw [List.filter_filter]
  congr 1
  funext a
  exact Bool.and_comm _ _

/-- Every pass is the construction of the list of the images it retains. -/
theorem pass_apply_eq_filter (lower : Char → Char) (pass : Pass) (i : Images) :
    (pass.apply lower i).Images = i.Images.filter (pass.keeps lower) := by
  cases pass with
  | tokens f => exact images_filter_eq_keepIf lower i f
  | region r =>
    by_cases hr : r = ""
    · subst hr
      simp only [Pass.apply, Images.filterRegion, if_true]
      symm
      rw [List.filter_eq_self]
      intro a _
      simp [Pass.keeps]
    · simp only [Pass.apply, Images.filterRegion, if_neg hr]
      have hpred : Pass.keeps lower (.region r) = fun val => decide (val.Region = r) := by
        funext val
        simp [Pass.keeps, hr]
      rw [hpred]
      exact (compactLoop_whole (fun val => decide (val.Region = r)) i.Images).1
  | suse => exact (compactLoop_whole (fun val => hasPrefix val.Name "suse-") i.Images).1

/-- A sequence of passes is the construction of the list of the images every
pass of the sequence retains. -/
theorem applyPasses_eq_filter (lower : Char → Char) (passes : List Pass) :
    ∀ i : Images, (applyPasses lower passes i).Images =
      i.Images.filter fun image => passes.all fun pass => pass.keeps lower image := by
  induction passes with
  | nil =>
    intro i
    simp [applyPasses]
  | cons pass passes ih =>
    intro i
    have hstep : applyPasses lower (pass :: passes) i =
        applyPasses lower passes (pass.apply lower i) := rfl
    rw [hstep, ih, pass_apply_eq_filter, filter_filter_and]
    simp [List.all_cons]

/-! ## C17 -/

/-- C17: the list after a sequence of the passes `Images.filter`,
`Images.filterRegion`, `Images.filterSUSE` is the same for every order of the
sequence (here for the three passes in source order and in reverse, and for
any two sequences that are permutations of each other), and each pass is
idempotent: `Images.filter` run again with the same string leaves the list
as it is and returns 0, and so do `filterRegion` and `filterSUSE` leave their
result as it is. -/
theorem filter_passes_any_order (lower : Char → Char) (i : Images) (filter region : String)
    (ps qs : List Pass) :
    (ps.Perm qs → applyPasses lower ps i = applyPasses lower qs i) ∧
    (((i.filterSUSE).filter lower filter).1.filterRegion region =
      ((i.filterRegion region).filter lower filter).1.filterSUSE) ∧
    ((i.filter lower filter).1.filter lower filter = ((i.filter lower filter).1, 0)) ∧
    (i.filterRegion region).filterRegion region = i.filterRegion region ∧
    i.filterSUSE.filterSUSE = i.filterSUSE := by
  have hperm : ∀ ps qs : List Pass, ps.Perm qs →
      applyPasses lower ps i = applyPasses lower qs i := by
    intro ps qs h
    apply images_eq_of_list
    rw [applyPasses_eq_filter, applyPasses_eq_filter]
    congr 1
    funext image
    rw [Bool.eq_iff_iff, List.all_eq_true, List.all_eq_true]
    exact ⟨fun hx x hm => hx x (h.mem_iff.2 hm), fun hx x hm => hx x (h.mem_iff.1 hm)⟩
  have hidem : ∀ (pass : Pass) (j : Images),
      pass.apply lower (pass.apply lower j) = pass.apply lower j := by
    intro pass j
    apply images_eq_of_list
    rw [pass_apply_eq_filter, pass_apply_eq_filter, filter_filter_and]
    congr 1
    funext a
    exact Bool.and_self _
  refine ⟨hperm ps qs, ?_, ?_, hidem (.region region) i, hidem .suse i⟩
  · exact hperm [.suse, .tokens filter, .region region] [.region region, .tokens filter, .suse]
      (List.reverse_perm [Pass.region region, Pass.tokens filter, Pass.suse])
  · have hfst : ((i.filter lower filter).1.filter lower filter).1 = (i.filter lower filter).1 :=
      hidem (.tokens filter) i
    have hcount := images_filter_count_add lower (i.filter lower filter).1 filter
    rw [hfst] at hcount
    exact Prod.ext hfst (by simpa using hcount)

/-- C17 at the sequences suse, tokens `15`, region `eu` and region `eu`, suse,
tokens `15`, on a list of four images. -/
theorem filter_passes_any_order_witness :
    List.Perm [Pass.suse, Pass.tokens "15", Pass.region "eu"]
      [Pass.region "eu", Pass.suse, Pass.tokens "15"] ∧
    applyPasses asciiLower [Pass.suse, Pass.tokens "15", Pass.region "eu"]
        ⟨[mkImage "suse-sles-15" "eu" "" "", mkImage "suse-sles-12" "eu" "" "",
          mkImage "other-15" "eu" "" "", mkImage "suse-sles-15" "us" "" ""]⟩ =
      ⟨[mkImage "suse-sles-15" "eu" "" ""]⟩ ∧
    applyPasses asciiLower [Pass.suse, Pass.tokens "15", Pass.region "eu"]
        ⟨[mkImage "suse-sles-15" "eu" "" "", mkImage "suse-sles-12" "eu" "" "",
          mkImage "other-15" "eu" "" "", mkImage "suse-sles-15" "us" "" ""]⟩ =
      applyPasses asciiLower [Pass.region "eu", Pass.suse, Pass.tokens "15"]
        ⟨[mkImage "suse-sles-15" "eu" "" "", mkImage "suse-sles-12" "eu" "" "",
          mkImage "other-15" "eu" "" "", mkImage "suse-sles-15" "us" "" ""]⟩ :=
  ⟨by decide, by decide,
    (filter_passes_any_order asciiLower
      ⟨[mkImage "suse-sles-15" "eu" "" "", mkImage "suse-sles-12" "eu" "" "",
        mkImage "other-15" "eu" "" "", mkImage "suse-sles-15" "us" "" ""]⟩ "" ""
      [Pass.suse, Pass.tokens "15", Pass.region "eu"]
      [Pass.region "eu", Pass.suse, Pass.tokens "15"]).1 (by decide)⟩

/-! ## C12 -/

theorem mem_insertBy (less : Image → Image → Bool) (a x : Image) (l : List Image)
    (h : x ∈ insertBy less a l) : x = a ∨ x ∈ l :=
  List.mem_cons.1 ((insertBy_perm less a l).subset h)

theorem insertBy_sorted (less : Image → Image → Bool) (hless : StrictWeakOrdering less)
    (a : Image) (l : List Image) (h : l.Pairwise fun x y => less y x = false) :
    (insertBy less a l).Pairwise fun x y => less y x = false := by
  induction l with
  | nil => simp [insertBy]
  | cons b l ih =>
    have hb := (List.pairwise_cons.1 h).1
    have hl := (List.pairwise_cons.1 h).2
    simp only [insertBy]
    split
    · rename_i hab
      refine List.pairwise_cons.2 ⟨?_, h⟩
      intro c hc
      rcases List.mem_cons.1 hc with e | hcl
      · rw [e]
        cases hba : less b a
        · rfl
        · have := hless.2.1 a b a hab hba
          rw [hless.1 a] at this
          cases this
      · cases hca : less c a
        · rfl
        · have := hless.2.1 c a b hca hab
          rw [hb c hcl] at this
          cases this
    · rename_i hab
      refine List.pairwise_cons.2 ⟨?_, ih hl⟩
      intro c hc
      rcases mem_insertBy less a c l hc with e | hcl
      · rw [e]
        simpa using hab
      · exact hb c hcl

/-- Insertion sort meets what is assumed of `sort.Slice`: for a strict weak
ordering `less`, no element of the result is less than an earlier one. -/
theorem insertionSortBy_sorted (less : Image → Image → Bool)
    (l : List Image) (hless : StrictWeakOrdering less) :
    (insertionSortBy less l).Pairwise fun x y => less y x = false := by
  induction l with
  | nil => simp [insertionSortBy]
  | cons a l ih => exact insertBy_sorted less hless a _ ih

/-- The comparison by `Name` is a strict weak ordering. -/
theorem nameLess_strictWeakOrdering : StrictWeakOrdering nameLess := by
  refine ⟨?_, ?_, ?_⟩
  · intro a
    simp [nameLess]
  · intro a b c hab hbc
    simp only [nameLess, decide_eq_true_eq] at hab hbc ⊢
    exact lt_trans hab hbc
  · intro a b c hab hbc
    simp only [nameLess, decide_eq_false_iff_not, not_lt] at hab hbc ⊢
    exact le_trans hbc hab

/-- A list in which no element is less by `nameLess` than an earlier one is in
ascending order by `Name`. -/
theorem sortedByName_of_nameLess (l : List Image)
    (h : l.Pairwise fun x y => nameLess y x = false) : SortedByName l := by
  refine List.Pairwise.imp ?_ h
  intro a b hab
  simpa [nameLess] using hab

theorem fetchImages_sorted (env : Env)
    (hsort : ∀ l, SortedByName (env.sortSlice nameLess l))
    (k : Nat) (csp : String) (images : Images) (h : FetchImages env k csp = .ok images) :
    SortedByName images.Images := by
  simp only [FetchImages] at h
  split at h
  · cases h
  · cases h
    exact hsort _

theorem pass_apply_sorted (lower : Char → Char) (pass : Pass) (i : Images)
    (h : SortedByName i.Images) : SortedByName (pass.apply lower i).Images := by
  rw [pass_apply_eq_filter]
  exact List.Pairwise.filter _ h

theorem applyPasses_sorted (lower : Char → Char) (passes : List Pass) (i : Images)
    (h : SortedByName i.Images) : SortedByName (applyPasses lower passes i).Images := by
  rw [applyPasses_eq_filter]
  exact List.Pairwise.filter _ h

theorem tablesSorted_append (tr : List Event) (e : Event) (h : TablesSorted tr)
    (he : ∀ columns rows, e = .table columns rows → SortedByName rows) :
    TablesSorted (tr ++ [e]) := by
  intro columns rows hm
  rcases List.mem_append.1 hm with h1 | h1
  · exact h columns rows h1
  · have : Event.table columns rows = e := by simpa using h1
    exact he columns rows this.symm

theorem tablesSorted_append_text (tr : List Event) (texts : List String)
    (h : TablesSorted tr) : TablesSorted (tr ++ texts.map fun n => .stdout (n ++ "\n")) := by
  intro columns rows hm
  rcases List.mem_append.1 hm with h1 | h1
  · exact h columns rows h1
  · simp at h1

theorem emptyDiagnostic_not_table (n : Nat) (columns : List String) (rows : List Image) :
    emptyDiagnostic n ≠ .table columns rows := by
  unfold emptyDiagnostic
  split <;> simp

/-- A provider query renders only tables in name order. -/
theorem queryCSP_tablesSorted (env : Env)
    (hsort : ∀ l, SortedByName (env.sortSlice nameLess l))
    (arg : String) (st : ExecState) (h : TablesSorted st.trace) :
    TablesSorted (queryCSP env arg st).trace := by
  have hget : ∀ url, TablesSorted (st.trace ++ [Event.httpGet url]) := fun url =>
    tablesSorted_append _ _ h (by simp)
  have htok : ∀ (images : Images) (f : String), SortedByName images.Images →
      SortedByName (images.filter env.lower f).1.Images := fun images f hs =>
    pass_apply_sorted env.lower (.tokens f) images hs
  simp only [queryCSP]
  split_ifs
  · simp only [queryGCE, ExecState.halt, ExecState.emit]
    split
    · exact tablesSorted_append _ _ (hget _) (by simp)
    · rename_i images hfetch
      have hs := fetchImages_sorted env hsort _ _ _ hfetch
      split_ifs
      · exact tablesSorted_append _ _ (hget _) (fun c r e =>
          absurd e (emptyDiagnostic_not_table _ c r))
      · refine tablesSorted_append _ _ (hget _) ?_
        intro c r e
        simp only [Event.table.injEq] at e
        rw [← e.2]
        exact htok _ _ hs
  · simp only [queryAWS, ExecState.halt, ExecState.emit]
    split
    · exact tablesSorted_append _ _ (hget _) (by simp)
    · rename_i images hfetch
      have hs := fetchImages_sorted env hsort _ _ _ hfetch
      split_ifs
      · exact tablesSorted_append _ _ (hget _) (fun c r e =>
          absurd e (emptyDiagnostic_not_table _ c r))
      · refine tablesSorted_append _ _ (hget _) ?_
        intro c r e
        simp only [Event.table.injEq] at e
        rw [← e.2]
        exact htok _ _ hs
      · refine tablesSorted_append _ _ (hget _) ?_
        intro c r e
        simp only [Event.table.injEq] at e
        rw [← e.2]
        exact pass_apply_sorted env.lower (.region st.config.Region) _ (htok _ _ hs)
  · simp only [queryAzure, ExecState.halt, ExecState.emit]
    split
    · exact tablesSorted_append _ _ (hget _) (by simp)
    · rename_i images hfetch
      have hs := fetchImages_sorted env hsort _ _ _ hfetch
      have hsuse := pass_apply_sorted env.lower .suse images hs
      split_ifs
      · exact tablesSorted_append _ _ (hget _) (fun c r e =>
          absurd e (emptyDiagnostic_not_table _ c r))
      · refine tablesSorted_append _ _ (hget _) ?_
        intro c r e
        simp only [Event.table.injEq] at e
        rw [← e.2]
        exact htok _ _ hsuse
  · exact tablesSorted_append _ _ h (by simp [ExecState.halt])

theorem listAWSRegions_tablesSorted (env : Env) (st : ExecState) (h : TablesSorted st.trace) :
    TablesSorted (listAWSRegions env st).trace := by
  have hget : TablesSorted (st.trace ++ [Event.httpGet regionsURL]) :=
    tablesSorted_append _ _ h (by simp)
  simp only [listAWSRegions, ExecState.halt, ExecState.emit]
  split
  · exact tablesSorted_append _ _ hget (by simp)
  · exact tablesSorted_append_text _ _ hget

theorem finish_trace (r : Run) : r.finish.trace = r.trace := by
  cases r <;> rfl

/-- The execution pass renders only tables in name order. -/
theorem execPass_tablesSorted (env : Env)
    (hsort : ∀ l, SortedByName (env.sortSlice nameLess l))
    (args : List String) (st : ExecState) (h : TablesSorted st.trace) :
    TablesSorted (execPass env args st).trace := by
  refine execPass_branch_induction env
    (fun args st => TablesSorted st.trace → TablesSorted (execPass env args st).trace)
    ?_ ?_ ?_ ?_ ?_ ?_ ?_ ?_ ?_ ?_ ?_ args.length args (Nat.le_refl _) st h
  · intro st h
    rw [execPass_nil]
    exact h
  · intro rest st ih h
    rw [execPass_empty]
    exact ih h
  · intro arg rest st e h
    rw [execPass_help env arg rest st e]
    exact tablesSorted_append _ _ h (by simp)
  · intro rest st h
    rw [execPass_version]
    exact tablesSorted_append _ _ h (by simp)
  · intro arg st hflag h
    rw [execPass_flag_last env arg st hflag]
    exact h
  · intro arg value rest st e ih h
    rw [execPass_filter env arg value rest st e]
    exact ih h
  · intro arg value rest st e ih h
    rw [execPass_region env arg value rest st e]
    exact ih h
  · intro rest st ih h
    rw [execPass_listAzEnvs]
    exact ih (tablesSorted_append_text _ _ h)
  · intro rest st ih h
    rw [execPass_listAWSRegions]
    have hl := listAWSRegions_tablesSorted env st h
    cases hr : listAWSRegions env st with
    | halted o =>
      rw [hr] at hl
      exact hl
    | done st1 =>
      rw [hr] at hl
      exact ih st1 hr hl
  · intro arg rest st hne hdash hrec h
    rw [execPass_unrecognized_flag env arg rest st hne hdash hrec]
    exact tablesSorted_append _ _ h (by simp)
  · intro arg rest st hne hdash ih h
    rw [execPass_csp env arg rest st hne hdash]
    have hq := queryCSP_tablesSorted env hsort arg st h
    cases hr : queryCSP env arg st with
    | halted o =>
      rw [hr] at hq
      exact hq
    | done st1 =>
      rw [hr] at hq
      exact ih st1 hr hq

/-- C12: when `sort.Slice` does what its documentation says (for a comparison
that is a strict weak ordering, no element of the result is less than an
earlier one), the list `FetchImages` returns, sorted with the source's
comparison `Name < Name`, is in ascending order by `Name`; it stays so after
every sequence of the passes `Images.filterSUSE`, `Images.filter` and
`Images.filterRegion`; and every table `main` renders, for every argument
list, has its rows in that order. -/
theorem fetched_list_sorted_through_passes (env : Env)
    (hsort : ∀ (less : Image → Image → Bool) (l : List Image), StrictWeakOrdering less →
      (env.sortSlice less l).Pairwise fun x y => less y x = false)
    (k : Nat) (csp : String) (decoded : List Image)
    (hdecoded : env.images k csp = .ok decoded) :
    (∃ ret : Images, FetchImages env k csp = .ok ret ∧ SortedByName ret.Images ∧
      ∀ passes : List Pass, SortedByName (applyPasses env.lower passes ret).Images) ∧
    ∀ (args : List String) (columns : List String) (rows : List Image),
      Event.table columns rows ∈ (main env args).trace → SortedByName rows := by
  have hname : ∀ l, SortedByName (env.sortSlice nameLess l) := fun l =>
    sortedByName_of_nameLess _ (hsort nameLess l nameLess_strictWeakOrdering)
  constructor
  · have hfetch : FetchImages env k csp =
        .ok (FetchImages.postprocess env.sortSlice ⟨decoded⟩) := by
      simp [FetchImages, hdecoded]
    have hs := fetchImages_sorted env hname k csp _ hfetch
    exact ⟨_, hfetch, hs, fun passes => applyPasses_sorted env.lower passes _ hs⟩
  · intro args
    have hinit : TablesSorted ExecState.initial.trace := by
      intro columns rows hm
      simp [ExecState.initial] at hm
    have hexec := execPass_tablesSorted env hname args ExecState.initial hinit
    have hmain : TablesSorted (main env args).trace := by
      simp only [main]
      split_ifs
      · intro columns rows hm
        simp at hm
      · intro columns rows hm
        simp at hm
      · rw [finish_trace]
        exact hexec
    exact hmain

/-- C12 with insertion sort for `sort.Slice` and a feed of three images out of
order, one of them deprecated: the fetched list is in name order, and so is
the table of the Amazon query for region `eu`. -/
theorem fetched_list_sorted_through_passes_witness :
    (∀ (less : Image → Image → Bool) (l : List Image), StrictWeakOrdering less →
      ((Env.example [mkImage "sles-c" "eu" "" "", mkImage "sles-b" "eu" "2020" "",
        mkImage "sles-a" "eu" "" ""]).sortSlice less l).Pairwise
          fun x y => less y x = false) ∧
    (Env.example [mkImage "sles-c" "eu" "" "", mkImage "sles-b" "eu" "2020" "",
        mkImage "sles-a" "eu" "" ""]).images 0 "amazon" =
      .ok [mkImage "sles-c" "eu" "" "", mkImage "sles-b" "eu" "2020" "",
        mkImage "sles-a" "eu" "" ""] ∧
    main (Env.example [mkImage "sles-c" "eu" "" "", mkImage "sles-b" "eu" "2020" "",
        mkImage "sles-a" "eu" "" ""]) ["-r", "eu", "aws"] =
      ⟨[.httpGet (imagesURL "amazon"), .table ["ID", "Name", "State"]
        [mkImage "sles-a" "eu" "" "", mkImage "sles-c" "eu" "" ""]], .returned⟩ ∧
    SortedByName [mkImage "sles-a" "eu" "" "", mkImage "sles-c" "eu" "" ""] :=
  ⟨insertionSortBy_sorted, rfl, by decide,
    (fetched_list_sorted_through_passes (Env.example [mkImage "sles-c" "eu" "" "",
        mkImage "sles-b" "eu" "2020" "", mkImage "sles-a" "eu" "" ""])
      insertionSortBy_sorted 0 "amazon" _ rfl).2 ["-r", "eu", "aws"]
      ["ID", "Name", "State"] [mkImage "sles-a" "eu" "" "", mkImage "sles-c" "eu" "" ""]
      (by decide)⟩

/-! ## C18 -/

theorem filterLoop_append (name : String) (a b : List String) :
    Image.filterLoop name (a ++ b) = (Image.filterLoop name a && Image.filterLoop name b) := by
  rw [Bool.eq_iff_iff, Bool.and_eq_true, filterLoop_iff, filterLoop_iff, filterLoop_iff]
  constructor
  · intro h
    exact ⟨fun f hf => h f (List.mem_append_left _ hf),
      fun f hf => h f (List.mem_append_right _ hf)⟩
  · rintro ⟨h1, h2⟩ f hf
    rcases List.mem_append.1 hf with h | h
    · exact h1 f h
    · exact h2 f h

theorem contains_empty (s : String) : contains s "" = true := by
  have h := contains_iff_infix s ""
  exact h.2 List.nil_infix

/-- The early return of `Image.filter` for the empty filter agrees with the
loop, which on the empty filter sees the one empty token. -/
theorem image_filter_eq_loop (lower : Char → Char) (i : Image) (filter : String) :
    Image.filter lower i filter =
      Image.filterLoop (toLower lower i.Name) (splitComma (toLower lower filter)) := by
  by_cases h : filter = ""
  · subst h
    have hsplit : splitComma (toLower lower "") = [""] := rfl
    have htrim : trimSpace "" = "" := rfl
    rw [hsplit]
    simp [Image.filter, Image.filterLoop, htrim, contains_empty]
  · simp [Image.filter, h]

theorem splitComma_toLower_join (lower : Char → Char) (hcomma : lower ',' = ',')
    (f g : String) :
    splitComma (toLower lower (f ++ "," ++ g)) =
      splitComma (toLower lower f) ++ splitComma (toLower lower g) := by
  have hd : (toLower lower (f ++ "," ++ g)).data =
      f.data.map lower ++ ',' :: g.data.map lower := by
    simp [toLower, String.data_append, hcomma]
  simp only [splitComma, hd, splitChars_append, List.map_append]
  rfl

theorem image_filter_join (lower : Char → Char) (hcomma : lower ',' = ',')
    (i : Image) (f g : String) :
    Image.filter lower i (f ++ "," ++ g) =
      (Image.filter lower i f && Image.filter lower i g) := by
  rw [image_filter_eq_loop, image_filter_eq_loop lower i f, image_filter_eq_loop lower i g,
    splitComma_toLower_join lower hcomma, filterLoop_append]

theorem dropWhile_of_all (l : List Char) (h : ∀ c ∈ l, isSpace c = true) :
    l.dropWhile isSpace = [] := by
  induction l with
  | nil => rfl
  | cons c l ih =>
    rw [List.dropWhile_cons, if_pos (h c (List.mem_cons_self _ _))]
    exact ih fun x hx => h x (List.mem_cons_of_mem _ hx)

/-- A filter of white space only accepts every image. -/
theorem image_filter_blank (lower : Char → Char)
    (hspace : ∀ c, isSpace (lower c) = isSpace c)
    (i : Image) (w : String) (hw : ∀ c ∈ w.data, isSpace c = true) :
    Image.filter lower i w = true := by
  have hall : ∀ c ∈ w.data.map lower, isSpace c = true := by
    intro c hc
    obtain ⟨x, hx, e⟩ := List.mem_map.1 hc
    rw [← e, hspace]
    exact hw x hx
  have hnocomma : ',' ∉ w.data.map lower := by
    intro hc
    have := hall ',' hc
    exact absurd this (by decide)
  have hsplit : splitComma (toLower lower w) = [toLower lower w] := by
    simp only [splitComma, toLower, splitChars_of_not_mem _ _ hnocomma]
    rfl
  have htrim : trimSpace (toLower lower w) = "" := by
    simp only [trimSpace, toLower, dropWhile_of_all _ hall]
    rfl
  rw [image_filter_eq_loop, hsplit]
  simp [Image.filterLoop, htrim, contains_empty]

/-- C18: for every image and all strings `f` and `g`, empty ones included,
`Image.filter` accepts `f + "," + g` exactly when it accepts `f` and accepts
`g`; so an image accepted with a longer filter is accepted with the shorter
one; a token of white space only, before or after, changes nothing; and a
trailing comma changes nothing.  Of lowercasing this needs that the comma is
mapped to itself and white space is kept apart from the rest. -/
theorem comma_join_is_conjunction (lower : Char → Char)
    (hcomma : lower ',' = ',')
    (hspace : ∀ c, isSpace (lower c) = isSpace c)
    (i : Image) (f g : String) :
    (Image.filter lower i (f ++ "," ++ g) = true ↔
      Image.filter lower i f = true ∧ Image.filter lower i g = true) ∧
    (Image.filter lower i (f ++ "," ++ g) = true → Image.filter lower i f = true) ∧
    (∀ w : String, (∀ c ∈ w.data, isSpace c = true) →
      Image.filter lower i (f ++ "," ++ w) = Image.filter lower i f ∧
      Image.filter lower i (w ++ "," ++ f) = Image.filter lower i f) ∧
    Image.filter lower i (f ++ ",") = Image.filter lower i f := by
  have hjoin := image_filter_join lower hcomma i
  have hiff : Image.filter lower i (f ++ "," ++ g) = true ↔
      Image.filter lower i f = true ∧ Image.filter lower i g = true := by
    rw [hjoin f g, Bool.and_eq_true]
  have hblank : ∀ w : String, (∀ c ∈ w.data, isSpace c = true) →
      Image.filter lower i (f ++ "," ++ w) = Image.filter lower i f ∧
      Image.filter lower i (w ++ "," ++ f) = Image.filter lower i f := by
    intro w hw
    have := image_filter_blank lower hspace i w hw
    rw [hjoin f w, hjoin w f, this]
    simp
  refine ⟨hiff, fun h => (hiff.1 h).1, hblank, ?_⟩
  have h := (hblank "" (by simp)).1
  have he : f ++ "," ++ "" = f ++ "," := by
    apply String.ext
    simp [String.data_append]
  rw [he] at h
  exact h

/-- C18 at ASCII lowercasing, the image `SLES-15-SP2` and the filters `sles`
and `sp3`: the joined filter is rejected because `sp3` is. -/
theorem comma_join_is_conjunction_witness :
    asciiLower ',' = ',' ∧
    (∀ c, isSpace (asciiLower c) = isSpace c) ∧
    Image.filter asciiLower (mkImage "SLES-15-SP2" "" "" "") "sles" = true ∧
    Image.filter asciiLower (mkImage "SLES-15-SP2" "" "" "") "sp3" = false ∧
    Image.filter asciiLower (mkImage "SLES-15-SP2" "" "" "") ("sles" ++ "," ++ "sp3") = false ∧
    (Image.filter asciiLower (mkImage "SLES-15-SP2" "" "" "") ("sles" ++ "," ++ "15") = true →
      Image.filter asciiLower (mkImage "SLES-15-SP2" "" "" "") "sles" = true) ∧
    Image.filter asciiLower (mkImage "SLES-15-SP2" "" "" "") ("sp2" ++ ",") =
      Image.filter asciiLower (mkImage "SLES-15-SP2" "" "" "") "sp2" :=
  ⟨by decide, asciiLower_space, by decide, by decide, by decide,
    (comma_join_is_conjunction asciiLower (by decide) asciiLower_space
      (mkImage "SLES-15-SP2" "" "" "") "sles" "15").2.1,
    (comma_join_is_conjunction asciiLower (by decide) asciiLower_space
      (mkImage "SLES-15-SP2" "" "" "") "sp2" "").2.2.2⟩

/-! ## C10, amended -/

theorem endsAtArgument_cons_of_not_flag (arg : String) (rest : List String)
    (h : ¬ isValueFlag arg = true) : endsAtArgument (arg :: rest) = endsAtArgument rest := by
  cases rest with
  | nil =>
    have h2 : isValueFlag arg = false := by simpa using h
    simp [endsAtArgument, h2]
  | cons value rest =>
    have h2 : isValueFlag arg = false := by simpa using h
    simp [endsAtArgument, h2]

theorem endsAtArgument_flag_value (arg value : String) (rest : List String)
    (h : isValueFlag arg = true) :
    endsAtArgument (arg :: value :: rest) = endsAtArgument rest := by
  simp [endsAtArgument, h]

theorem endsAtArgument_flag_last (arg : String) (h : isValueFlag arg = true) :
    endsAtArgument [arg] = false := by
  simp [endsAtArgument, h]

theorem split_head (arg tok : String) (rest pre post : List String)
    (h : arg :: rest = pre ++ tok :: post) :
    (pre = [] ∧ arg = tok ∧ rest = post) ∨
      ∃ pre', pre = arg :: pre' ∧ rest = pre' ++ tok :: post := by
  cases pre with
  | nil =>
    simp only [List.nil_append, List.cons.injEq] at h
    exact Or.inl ⟨rfl, h.1, h.2⟩
  | cons a pre' =>
    simp only [List.cons_append, List.cons.injEq] at h
    exact Or.inr ⟨pre', by rw [h.1], h.2⟩

theorem fatalAfter_at_token (env : Env) (tok : String) (post : List String) (st : ExecState)
    (toks : List String) (htok : isUnrecognized tok = true) :
    (execPass env (tok :: post) st).FatalAfter st.trace toks := by
  obtain ⟨text, h⟩ := execPass_unrecognized env tok post st htok
  rw [h]
  refine ⟨rfl, ?_⟩
  intro url hm
  left
  simpa [Run.trace] using hm

theorem fatalAfter_halt (st : ExecState) (text : String) (toks : List String) :
    (st.halt (.stderr text) .exit1).FatalAfter st.trace toks := by
  refine ⟨rfl, ?_⟩
  intro url hm
  left
  simpa [Run.trace, ExecState.halt] using hm

theorem fatalAfter_mono (r : Run) (before before' : List Event) (toks toks' : List String)
    (h : r.FatalAfter before toks)
    (hbefore : ∀ url, Event.httpGet url ∈ before →
      Event.httpGet url ∈ before' ∨ ∃ a ∈ toks', isCSP a = true ∨ a = "--list-aws-regions")
    (htoks : ∀ a ∈ toks, a ∈ toks') : r.FatalAfter before' toks' := by
  refine ⟨h.1, ?_⟩
  intro url hm
  rcases h.2 url hm with h1 | ⟨a, ha, hk⟩
  · exact hbefore url h1
  · exact Or.inr ⟨a, htoks a ha, hk⟩

theorem fatalAfter_of_token (r : Run) (before : List Event) (toks : List String) (a : String)
    (hexit : r.finish.exit = .exit1) (ha : a ∈ toks)
    (hk : isCSP a = true ∨ a = "--list-aws-regions") : r.FatalAfter before toks :=
  ⟨hexit, fun _ _ => Or.inr ⟨a, ha, hk⟩⟩

theorem not_isValueFlag_of_not_dash (arg : String) (hdash : ¬ arg.data.head? = some '-') :
    ¬ isValueFlag arg = true := by
  intro hf
  rcases (isValueFlag_iff arg).1 hf with e | e | e | e <;> subst e <;>
    exact absurd (by decide) hdash

theorem pre_cons_of_not_flag (Q : String → Prop) (arg : String) (pre : List String)
    (hnf : ¬ isValueFlag arg = true)
    (hpos : endsAtArgument (arg :: pre) = true)
    (hq : ∀ a ∈ encountered (arg :: pre), Q a) :
    endsAtArgument pre = true ∧ (∀ a ∈ encountered pre, Q a) ∧ Q arg ∧
      arg ∈ encountered (arg :: pre) ∧ ∀ a ∈ encountered pre, a ∈ encountered (arg :: pre) := by
  rw [endsAtArgument_cons_of_not_flag arg pre hnf] at hpos
  rw [encountered_cons_of_not_flag arg pre hnf] at hq ⊢
  exact ⟨hpos, fun a ha => hq a (List.mem_cons_of_mem _ ha), hq arg (List.mem_cons_self _ _),
    List.mem_cons_self _ _, fun a ha => List.mem_cons_of_mem _ ha⟩

theorem pre_cons_of_flag (Q : String → Prop) (arg value tok : String)
    (rest pre post : List String) (hf : isValueFlag arg = true)
    (hsplit : value :: rest = pre ++ tok :: post)
    (hpos : endsAtArgument (arg :: pre) = true)
    (hq : ∀ a ∈ encountered (arg :: pre), Q a) :
    ∃ pre', rest = pre' ++ tok :: post ∧ endsAtArgument pre' = true ∧
      (∀ a ∈ encountered pre', Q a) ∧
      ∀ a ∈ encountered pre', a ∈ encountered (arg :: pre) := by
  rcases split_head value tok rest pre post hsplit with ⟨hp, _, _⟩ | ⟨pre', hp, hr⟩
  · rw [hp, endsAtArgument_flag_last arg hf] at hpos
    cases hpos
  · rw [hp, endsAtArgument_flag_value arg value pre' hf] at hpos
    rw [hp, encountered_flag_value arg value pre' hf] at hq ⊢
    exact ⟨pre', hr, hpos, fun a ha => hq a (List.mem_cons_of_mem _ ha),
      fun a ha => List.mem_cons_of_mem _ ha⟩

/-- From any state, the execution pass over arguments in which an
unrecognized token follows, at an argument position, arguments among which no
help or version flag is encountered ends the process with status 1, and makes
a request only for a provider token or `--list-aws-regions` encountered
before the unrecognized token. -/
theorem execPass_fatalAfter (env : Env) (tok : String) (post : List String)
    (htok : isUnrecognized tok = true) (args : List String) (st : ExecState)
    (pre : List String) (hargs : args = pre ++ tok :: post)
    (hpos : endsAtArgument pre = true)
    (hhelp : ∀ a ∈ encountered pre, a ≠ "-h" ∧ a ≠ "--help" ∧ a ≠ "--version") :
    (execPass env args st).FatalAfter st.trace (encountered pre) := by
  refine execPass_branch_induction env
    (fun args st => ∀ pre, args = pre ++ tok :: post → endsAtArgument pre = true →
      (∀ a ∈ encountered pre, a ≠ "-h" ∧ a ≠ "--help" ∧ a ≠ "--version") →
      (execPass env args st).FatalAfter st.trace (encountered pre))
    ?_ ?_ ?_ ?_ ?_ ?_ ?_ ?_ ?_ ?_ ?_ args.length args (Nat.le_refl _) st pre hargs hpos hhelp
  · intro st pre h
    cases pre <;> simp at h
  · intro rest st ih pre h hpos hhelp
    rcases split_head _ _ _ _ _ h with ⟨_, ht, hr⟩ | ⟨pre', hp, hr⟩
    · rw [ht, hr]
      exact fatalAfter_at_token env tok post st _ htok
    · subst hp
      obtain ⟨hpos', hhelp', _, _, hsub⟩ :=
        pre_cons_of_not_flag _ "" pre' (by decide) hpos hhelp
      rw [execPass_empty]
      exact fatalAfter_mono _ _ _ _ _ (ih pre' hr hpos' hhelp') (fun _ hm => Or.inl hm) hsub
  · intro arg rest st e pre h hpos hhelp
    rcases split_head _ _ _ _ _ h with ⟨_, ht, hr⟩ | ⟨pre', hp, hr⟩
    · rw [ht, hr]
      exact fatalAfter_at_token env tok post st _ htok
    · subst hp
      have hnf : ¬ isValueFlag arg = true := by rcases e with e | e <;> subst e <;> decide
      obtain ⟨_, _, hq, _, _⟩ := pre_cons_of_not_flag _ arg pre' hnf hpos hhelp
      rcases e with e | e
      · exact absurd e hq.1
      · exact absurd e hq.2.1
  · intro rest st pre h hpos hhelp
    rcases split_head _ _ _ _ _ h with ⟨_, ht, hr⟩ | ⟨pre', hp, hr⟩
    · rw [ht, hr]
      exact fatalAfter_at_token env tok post st _ htok
    · subst hp
      obtain ⟨_, _, hq, _, _⟩ := pre_cons_of_not_flag _ "--version" pre' (by decide) hpos hhelp
      exact absurd rfl hq.2.2
  · intro arg st hf pre h hpos hhelp
    rcases split_head _ _ _ _ _ h with ⟨_, ht, hr⟩ | ⟨pre', hp, hr⟩
    · rw [ht, hr]
      exact fatalAfter_at_token env tok post st _ htok
    · cases pre' <;> simp at hr
  · intro arg value rest st e ih pre h hpos hhelp
    have hf : isValueFlag arg = true := by rcases e with e | e <;> subst e <;> decide
    rcases split_head _ _ _ _ _ h with ⟨_, ht, hr⟩ | ⟨pre', hp, hr⟩
    · rw [ht, hr]
      exact fatalAfter_at_token env tok post st _ htok
    · subst hp
      obtain ⟨pre2, hr2, hpos2, hhelp2, hsub⟩ :=
        pre_cons_of_flag _ arg value tok rest pre' post hf hr hpos hhelp
      rw [execPass_filter env arg value rest st e]
      exact fatalAfter_mono _ _ _ _ _ (ih pre2 hr2 hpos2 hhelp2) (fun _ hm => Or.inl hm) hsub
  · intro arg value rest st e ih pre h hpos hhelp
    have hf : isValueFlag arg = true := by rcases e with e | e <;> subst e <;> decide
    rcases split_head _ _ _ _ _ h with ⟨_, ht, hr⟩ | ⟨pre', hp, hr⟩
    · rw [ht, hr]
      exact fatalAfter_at_token env tok post st _ htok
    · subst hp
      obtain ⟨pre2, hr2, hpos2, hhelp2, hsub⟩ :=
        pre_cons_of_flag _ arg value tok rest pre' post hf hr hpos hhelp
      rw [execPass_region env arg value rest st e]
      exact fatalAfter_mono _ _ _ _ _ (ih pre2 hr2 hpos2 hhelp2) (fun _ hm => Or.inl hm) hsub
  · intro rest st ih pre h hpos hhelp
    rcases split_head _ _ _ _ _ h with ⟨_, ht, hr⟩ | ⟨pre', hp, hr⟩
    · rw [ht, hr]
      exact fatalAfter_at_token env tok post st _ htok
    · subst hp
      obtain ⟨hpos', hhelp', _, _, hsub⟩ :=
        pre_cons_of_not_flag _ "--list-az-envs" pre' (by decide) hpos hhelp
      rw [execPass_listAzEnvs]
      refine fatalAfter_mono _ _ _ _ _ (ih pre' hr hpos' hhelp') ?_ hsub
      intro url hm
      left
      simpa [listAzEnvs] using hm
  · intro rest st ih pre h hpos hhelp
    rcases split_head _ _ _ _ _ h with ⟨_, ht, hr⟩ | ⟨pre', hp, hr⟩
    · rw [ht, hr]
      exact fatalAfter_at_token env tok post st _ htok
    · subst hp
      obtain ⟨hpos', hhelp', _, hmem, hsub⟩ :=
        pre_cons_of_not_flag _ "--list-aws-regions" pre' (by decide) hpos hhelp
      rw [execPass_listAWSRegions]
      refine fatalAfter_of_token _ _ _ "--list-aws-regions" ?_ hmem (Or.inr rfl)
      cases hl : listAWSRegions env st with
      | halted o => exact listAWSRegions_halted_exit env st o hl
      | done st1 => exact (ih st1 hl pre' hr hpos' hhelp').1
  · intro arg rest st hne hdash hrec pre _ _ _
    rw [execPass_unrecognized_flag env arg rest st hne hdash hrec]
    exact fatalAfter_halt st _ _
  · intro arg rest st hne hdash ih pre h hpos hhelp
    rcases split_head _ _ _ _ _ h with ⟨_, ht, hr⟩ | ⟨pre', hp, hr⟩
    · rw [ht, hr]
      exact fatalAfter_at_token env tok post st _ htok
    · subst hp
      have hnf := not_isValueFlag_of_not_dash arg hdash
      obtain ⟨hpos', hhelp', _, hmem, hsub⟩ := pre_cons_of_not_flag _ arg pre' hnf hpos hhelp
      rw [execPass_csp env arg rest st hne hdash]
      by_cases hcsp : isCSP arg = true
      · refine fatalAfter_of_token _ _ _ arg ?_ hmem (Or.inl hcsp)
        cases hq : queryCSP env arg st with
        | halted o => exact queryCSP_halted_exit env arg st o hq
        | done st1 => exact (ih st1 hq pre' hr hpos' hhelp').1
      · have hcsp2 : isCSP arg = false := by simpa using hcsp
        rw [queryCSP_of_not_isCSP env arg st hcsp2]
        exact fatalAfter_halt st _ _

/-- C10, amended: when an unrecognized token stands at an argument position
and the scan encounters no `-h`, `--help` or `--version` before it, the
process exits with status 1 (in validation, at an earlier failure, or at the
token); it makes a request only for a provider token or `--list-aws-regions`
encountered before the token, so when there is none it makes no request. -/
theorem unrecognized_token_exits_1 (env : Env) (pre post : List String) (tok : String)
    (hpos : endsAtArgument pre = true)
    (hhelp : ∀ a ∈ encountered pre, a ≠ "-h" ∧ a ≠ "--help" ∧ a ≠ "--version")
    (htok : isUnrecognized tok = true) :
    (main env (pre ++ tok :: post)).exit = .exit1 ∧
    (∀ url, Event.httpGet url ∈ (main env (pre ++ tok :: post)).trace →
      ∃ a ∈ encountered pre, isCSP a = true ∨ a = "--list-aws-regions") ∧
    ((∀ a ∈ encountered pre, isCSP a = false ∧ a ≠ "--list-aws-regions") →
      ∀ url, Event.httpGet url ∉ (main env (pre ++ tok :: post)).trace) := by
  have hexec := execPass_fatalAfter env tok post htok _ ExecState.initial pre rfl hpos hhelp
  have hlen : ¬ (pre ++ tok :: post).length < 1 := by simp
  have hreq : ∀ url, Event.httpGet url ∈ (main env (pre ++ tok :: post)).trace →
      ∃ a ∈ encountered pre, isCSP a = true ∨ a = "--list-aws-regions" := by
    intro url hm
    by_cases hvalid : danglingScan (pre ++ tok :: post) "" = ""
    · rw [main_of_valid env _ (by simp) hvalid, finish_trace] at hm
      rcases hexec.2 url hm with h1 | h1
      · simp [ExecState.initial] at h1
      · exact h1
    · simp only [main, if_neg hlen] at hm
      rw [if_pos hvalid] at hm
      simp at hm
  refine ⟨?_, hreq, ?_⟩
  · by_cases hvalid : danglingScan (pre ++ tok :: post) "" = ""
    · rw [main_of_valid env _ (by simp) hvalid]
      exact hexec.1
    · simp only [main, if_neg hlen]
      rw [if_pos hvalid]
  · intro hquiet url hm
    obtain ⟨a, ha, hk⟩ := hreq url hm
    rcases hk with hk | hk
    · rw [(hquiet a ha).1] at hk
      cases hk
    · exact (hquiet a ha).2 hk

/-- C10 at `-f sles gce --bogus` with a feed that has no image for the filter:
the Google query fails before the unrecognized token is reached, the process
exits with status 1, and its one request is due to `gce`; and at
`-f sles --list-az-envs --bogus gce`, where no request is made. -/
theorem unrecognized_token_exits_1_witness :
    endsAtArgument ["-f", "sles", "gce"] = true ∧
    (∀ a ∈ encountered ["-f", "sles", "gce"], a ≠ "-h" ∧ a ≠ "--help" ∧ a ≠ "--version") ∧
    isUnrecognized "--bogus" = true ∧
    main (Env.example [mkImage "rhel" "" "" ""]) (["-f", "sles", "gce"] ++ "--bogus" :: []) =
      ⟨[.httpGet (imagesURL "google"),
        .stderr "no images found (too restrictive filter?)\n"], .exit1⟩ ∧
    (main (Env.example [mkImage "rhel" "" "" ""])
      (["-f", "sles", "gce"] ++ "--bogus" :: [])).exit = .exit1 ∧
    ∀ url, Event.httpGet url ∉ (main (Env.example [mkImage "sles" "" "" ""])
      (["-f", "sles", "--list-az-envs"] ++ "--bogus" :: ["gce"])).trace :=
  ⟨by decide, by decide, by decide, by decide,
    (unrecognized_token_exits_1 (Env.example [mkImage "rhel" "" "" ""])
      ["-f", "sles", "gce"] [] "--bogus" (by decide) (by decide) (by decide)).1,
    (unrecognized_token_exits_1 (Env.example [mkImage "sles" "" "" ""])
      ["-f", "sles", "--list-az-envs"] ["gce"] "--bogus" (by decide) (by decide)
      (by decide)).2.2 (by decide)⟩

end Seidl
